import Mathlib

/-!
Command dispatcher of the Twitch commands service.

Shallow embedding of `src/services/twitch/commands.service.js`
(`TwitchCommandsService.create`, `find` and `remove`) together with the
theorems that settle the claims of the specification.

Conventions of the embedding

* JavaScript strings are lists of characters (`Str`); a message is well-formed
  Unicode text.
* The regular expressions of the source are embedded as the Boolean
  recognisers they denote (`matchArchive`, `isSubmission`, ...).
* Timestamps are natural numbers (milliseconds); one call of `create`, `find`
  or `remove` reads the clock at most once, so the reading is an argument
  (`now`).
* The collections `twitchCommands` and `counter` and the services
  `twitch/users` and `vox/populi` are not part of the source file: they are
  modelled from section 6 of the specification.
-/

namespace TwitchCommands

/-- A JavaScript string, as the list of its characters. -/
abbrev Str := List Char

/-! ## String primitives of the host language -/

/-- The characters matched by `\s` and removed by `trim`: the WhiteSpace and
LineTerminator code points of ECMAScript. -/
def isWhiteSpace (c : Char) : Bool :=
  let n := c.toNat
  n == 0x09 || n == 0x0A || n == 0x0B || n == 0x0C || n == 0x0D || n == 0x20 ||
  n == 0xA0 || n == 0x1680 || (0x2000 ≤ n && n ≤ 0x200A) || n == 0x2028 ||
  n == 0x2029 || n == 0x202F || n == 0x205F || n == 0x3000 || n == 0xFEFF

/-- The characters matched by `\d`. -/
def isDigit (c : Char) : Bool :=
  48 ≤ c.toNat && c.toNat ≤ 57

/-- The characters matched by the class `[a-f0-9]`. -/
def isLowerHex (c : Char) : Bool :=
  isDigit c || (97 ≤ c.toNat && c.toNat ≤ 102)

/-- The test `s.startsWith(p)`, which is what an anchored literal such as
`/^!here/` decides. -/
def startsWith : Str → Str → Bool
  | [], _ => true
  | _ :: _, [] => false
  | p :: ps, c :: cs => p == c && startsWith ps cs

/-- The rest of `s` after the literal `p`, when `s` starts with `p`. -/
def dropStart : Str → Str → Option Str
  | [], s => some s
  | _ :: _, [] => none
  | p :: ps, c :: cs => if p == c then dropStart ps cs else none

/-- `s.split(sep)` for a one-character separator: never empty, the empty string
splits into one empty token. -/
def split (sep : Char) : Str → List Str
  | [] => [[]]
  | c :: cs =>
    if c == sep then [] :: split sep cs
    else
      match split sep cs with
      | [] => [[c]]
      | t :: ts => (c :: t) :: ts

/-- `args.join(sep)` for a one-character separator. -/
def join (sep : Char) : List Str → Str
  | [] => []
  | [t] => t
  | t :: u :: ts => t ++ sep :: join sep (u :: ts)

/-- `s.trimStart()`. -/
def trimStart (s : Str) : Str := s.dropWhile isWhiteSpace

/-- `s.trim()`. -/
def trim (s : Str) : Str := ((trimStart s).reverse.dropWhile isWhiteSpace).reverse

/-- `s.slice(1)`. -/
def slice1 (s : Str) : Str := s.drop 1

/-- `s.replace(c, '')` with a string pattern: only the first occurrence of the
character goes. -/
def replaceFirst (c : Char) : Str → Str
  | [] => []
  | d :: ds => if d == c then ds else d :: replaceFirst c ds

/-- The mathematical value of a string of decimal digits. -/
def digitsValue (ds : Str) : Nat :=
  ds.foldl (fun n c => 10 * n + (c.toNat - 48)) 0

/-- A non-negative JavaScript number with an integral value, or `Infinity`. -/
inductive JSNumber where
  | finite (n : Nat)
  | infinity
  deriving DecidableEq

/-- The IEEE-754 double nearest to a natural number (ties to even), which is
the number itself below `2 ^ 53`, and `Infinity` when the rounded value does
not fit the exponent range. -/
def roundToDouble (n : Nat) : JSNumber :=
  if n < 2 ^ 53 then JSNumber.finite n
  else
    let e := Nat.log2 n - 52
    let q := n / 2 ^ e
    let r := n % 2 ^ e
    let half := 2 ^ (e - 1)
    let q1 := if half < r || (r == half && q % 2 == 1) then q + 1 else q
    if Nat.log2 (q1 * 2 ^ e) < 1024 then JSNumber.finite (q1 * 2 ^ e) else JSNumber.infinity

/-- The unary plus `+digits` applied to a string of decimal digits. -/
def toNumber (ds : Str) : JSNumber := roundToDouble (digitsValue ds)

/-! ## The regular expressions of `create` -/

/-- The match of `/^!archive\s+#?(\d+)$/`: the captured digits, when the whole
text is `!archive`, at least one white space, an optional `#` and at least one
digit. -/
def matchArchive (s : Str) : Option Str :=
  match dropStart "!archive".toList s with
  | none => none
  | some r =>
    if (r.takeWhile isWhiteSpace).isEmpty then none
    else
      let r1 := r.dropWhile isWhiteSpace
      let r2 := match r1 with
        | '#' :: t => t
        | _ => r1
      if !r2.isEmpty && r2.all isDigit then some r2 else none

/-- The test of `/^!(ask|idea|submit)/`. -/
def isSubmission (s : Str) : Bool :=
  startsWith "!ask".toList s || startsWith "!idea".toList s || startsWith "!submit".toList s

/-- The test of `/^!here$/`. -/
def isHere (s : Str) : Bool := s == "!here".toList

/-- The test of `/^!setstatus /`. -/
def isSetStatus (s : Str) : Bool := startsWith "!setstatus ".toList s

/-- The test of `/^!clearstatus/`. -/
def isClearStatus (s : Str) : Bool := startsWith "!clearstatus".toList s

/-- The test of `/^!(country|flag|team|team-color|team-colour|pronoun)/`. -/
def isProfileCommand (s : Str) : Bool :=
  startsWith "!country".toList s || startsWith "!flag".toList s ||
  startsWith "!team".toList s || startsWith "!team-color".toList s ||
  startsWith "!team-colour".toList s || startsWith "!pronoun".toList s

/-- The test of `/^(([a-f0-9]){3}){1,2}$/`: three or six lower-case hexadecimal
digits. -/
def isHexColor (s : Str) : Bool :=
  (s.length == 3 || s.length == 6) && s.all isLowerHex

/-! ## Data model -/

/-- The badges of a chat message that `create` reads. -/
structure Badges where
  moderator : Bool
  broadcaster : Bool
  deriving DecidableEq

/-- The incoming chat message (`ChatMessage` of the specification). -/
structure ChatMessage where
  id : Str
  user_id : Str
  username : Str
  message : Str
  badges : Badges
  parsedMessage : Option Str
  deriving DecidableEq

/-- The profile of a chat user; an optional field is absent when `none`. -/
structure UserProfile where
  name : Str
  country : Option Str
  team : Option Str
  team_color : Option Str
  pronoun : Option Str
  status : Option Str
  last_seen : Option Nat
  deriving DecidableEq

/-- A document of the `twitchCommands` collection. -/
structure CommandRecord where
  _id : Nat
  id : Str
  num : Option Nat
  message : Str
  user_id : Str
  username : Str
  badges : Badges
  parsedMessage : Option Str
  created_at : Option Nat
  deleted_at : Option Nat
  archived : Option Bool
  ack : Option Bool
  deriving DecidableEq

/-- The one-field objects that `create` passes to `patch` of the users
service; `none` is the `undefined` or `null` that clears the field. -/
inductive ProfilePatch where
  | last_seen (now : Nat)
  | status (s : Option Str)
  | country (c : Option Str)
  | team (t : Option Str)
  | team_color (c : Option Str)
  | pronoun (p : Option Str)
  deriving DecidableEq

/-- The assignment `user.field = value` that goes with each patch. -/
def applyPatch (p : ProfilePatch) (u : UserProfile) : UserProfile :=
  match p with
  | .last_seen now => { u with last_seen := some now }
  | .status s => { u with status := s }
  | .country c => { u with country := c }
  | .team t => { u with team := t }
  | .team_color c => { u with team_color := c }
  | .pronoun q => { u with pronoun := q }

/-- What the module imports and the host supplies: the reference tables
(`getCountries`, `getIcons`, `validPronounChoices`, which are not part of the
source file) and `String.prototype.toLowerCase`, whose Unicode tables are not
reproduced: on ASCII text it lowers the letters `A` to `Z`. -/
structure Deps where
  toLowerCase : Str → Str
  toLowerCase_ascii : ∀ s : Str, (∀ c ∈ s, c.toNat < 128) → toLowerCase s = s.map Char.toLower
  countries : Str → Option Str
  fontAwesome : Str → Bool
  simpleIcons : Str → Bool
  pronounChoices : Str → Bool

/-- The persistent state `create` works on. -/
structure Store where
  twitchCommands : List CommandRecord
  counter : Option Nat
  users : Str → UserProfile

/-! ## Collaborators -/

/-- Modelled from the spec: `get(username) -> UserProfile` of the
Identity/Profile Store (the `twitch/users` service is not in the source); the
profile is keyed by the user name. -/
def usersGet (st : Store) (username : Str) : UserProfile :=
  { st.users username with name := username }

/-- Modelled from the spec: `patch(username, partialFields)` of the
Identity/Profile Store, an update in place of the profile under that key. -/
def usersPatch (st : Store) (name : Str) (p : ProfilePatch) : Store :=
  { st with users := fun n => if n = name then applyPatch p (st.users n) else st.users n }

/-- Modelled from the spec: `incrementAndGet("question")` of the Sequence
Generator, that is `counter.findOneAndUpdate` with `$inc` and `upsert`: the new
content of the counter document and the value it returns. -/
def counterIncrement (c : Option Nat) : Option Nat × Nat :=
  (some (c.getD 0 + 1), c.getD 0 + 1)

/-- Modelled from the spec: `findOne({ num })` of the CommandRecord store, the
first document whose `num` is the number asked for. -/
def findOneByNum (cs : List CommandRecord) (num : JSNumber) : Option CommandRecord :=
  match num with
  | .finite n => cs.find? (fun r => r.num == some n)
  | .infinity => none

/-- An `_id` no document of the collection has. -/
def freshId (cs : List CommandRecord) : Nat :=
  (cs.map (fun r => r._id)).foldr max 0 + 1

/-- The effect of `$set: message` on a document: every field the message has is
written, `num` only when the message was given one. -/
def setMessage (r : CommandRecord) (m : ChatMessage) (num : Option Nat) : CommandRecord :=
  { r with
    id := m.id
    user_id := m.user_id
    username := m.username
    message := m.message
    badges := m.badges
    parsedMessage := match m.parsedMessage with
      | some q => some q
      | none => r.parsedMessage
    num := match num with
      | some n => some n
      | none => r.num }

/-- The document an upsert inserts when no document has the message's id. -/
def newRecord (cs : List CommandRecord) (m : ChatMessage) (num : Option Nat) : CommandRecord :=
  { _id := freshId cs, id := m.id, num := num, message := m.message, user_id := m.user_id,
    username := m.username, badges := m.badges, parsedMessage := m.parsedMessage,
    created_at := none, deleted_at := none, archived := none, ack := none }

/-- Where the upsert lands in the rest of the collection, `all` being the whole
collection (for the fresh `_id`). -/
def upsertIn (all : List CommandRecord) (m : ChatMessage) (num : Option Nat) :
    List CommandRecord → List CommandRecord × CommandRecord
  | [] => ([newRecord all m num], newRecord all m num)
  | r :: rest =>
    if r.id = m.id then (setMessage r m num :: rest, setMessage r m num)
    else ((upsertIn all m num rest).1.cons r, (upsertIn all m num rest).2)

/-- Modelled from the spec: `findOneAndUpdate({ id }, { $set: message },
{ upsert: true })` of the CommandRecord store: the first document with the
message's id is updated, or a new one is appended; the new collection and the
document as stored. -/
def findOneAndUpdate (cs : List CommandRecord) (m : ChatMessage) (num : Option Nat) :
    List CommandRecord × CommandRecord :=
  upsertIn cs m num cs

/-! ## `create` -/

/-- How a call of `create` ends. -/
inductive Completion where
  | returned (created : CommandRecord) (user : UserProfile)
  | undefined
  | typeError
  deriving DecidableEq

/-- The state after a call of `create`, the calls it made to `remove` of
`vox/populi` and `patch` of `twitch/users`, and how it ended. -/
structure Outcome where
  store : Store
  removals : List Nat
  patches : List (Str × ProfilePatch)
  completion : Completion

/-- What the cascade after the upsert (lines 108 to 189) decides. -/
inductive Step where
  | patch (p : ProfilePatch)
  | nothing
  | returnUndefined
  | typeError
  deriving DecidableEq

/-- JavaScript truthiness of an optional Boolean field. -/
def truthy (b : Option Bool) : Bool := b == some true

/-- Line 77: `question && !question.archived && !question.deleted_at`. -/
def isNotArchivedOrDeleted (question : Option CommandRecord) : Bool :=
  match question with
  | none => false
  | some q => !truthy q.archived && q.deleted_at.isNone

/-- Lines 78 to 80: `!!(moderator || broadcaster || question.user_id ===
message.user_id)`; reading `user_id` of `null` throws, which is `none`. -/
def isModOrOwner (m : ChatMessage) (question : Option CommandRecord) : Option Bool :=
  if m.badges.moderator || m.badges.broadcaster then some true
  else
    match question with
    | none => none
    | some q => some (q.user_id == m.user_id)

/-- Lines 81 to 83: the question whose removal is asked of `vox/populi`, if
any. -/
def archiveRemovals (question : Option CommandRecord) (modOrOwner : Bool) : List Nat :=
  match question with
  | some q => if isNotArchivedOrDeleted question && modOrOwner then [q._id] else []
  | none => []

/-- Lines 129 to 188: the branch of the commands `country`, `flag`, `team`,
`team-color`, `team-colour` and `pronoun`. -/
def profileStep (deps : Deps) (text : Str) : Step :=
  match split ' ' text with
  | [] => .typeError
  | tok :: args =>
    let command := slice1 tok
    match args with
    | [] => .returnUndefined
    | a :: _ =>
      if command = "country".toList ∨ command = "flag".toList then
        let countryLookup := trim (deps.toLowerCase a)
        if countryLookup = "clear".toList ∨ countryLookup = "remove".toList then
          .patch (.country none)
        else
          match deps.countries countryLookup with
          | some country => .patch (.country (some country))
          | none => .nothing
      else if command = "team".toList then
        let team := trim (deps.toLowerCase a)
        if team = "clear".toList ∨ team = "remove".toList then .patch (.team none)
        else if deps.fontAwesome team || deps.simpleIcons team then .patch (.team (some team))
        else .nothing
      else if command = "team-color".toList ∨ command = "team-colour".toList then
        let color := replaceFirst '#' (trim (deps.toLowerCase a))
        if color = "clear".toList ∨ color = "remove".toList then .patch (.team_color none)
        else if isHexColor color then .patch (.team_color (some color))
        else .nothing
      else if command = "pronoun".toList then
        -- `args.shift() || ''` is the token itself: the empty token is the empty string
        let pronoun := trim (deps.toLowerCase a)
        if pronoun = "clear".toList ∨ pronoun = "remove".toList then .patch (.pronoun none)
        else if deps.pronounChoices pronoun then .patch (.pronoun (some pronoun))
        else .nothing
      else .nothing

/-- Line 116: `message.parsedMessage || message.message`. -/
def parsedOrMessage (m : ChatMessage) : Str :=
  match m.parsedMessage with
  | some q => if q = [] then m.message else q
  | none => m.message

/-- Lines 108 to 189: the cascade after the upsert. -/
def postUpsert (deps : Deps) (now : Nat) (m : ChatMessage) : Step :=
  if isHere m.message then .patch (.last_seen now)
  else if isSetStatus m.message then
    match split ' ' (parsedOrMessage m) with
    | [] => .typeError
    | _ :: args => .patch (.status (some (join ' ' args)))
  else if isClearStatus m.message then .patch (.status none)
  else if isProfileCommand m.message then profileStep deps m.message
  else .nothing

/-- Lines 101 to 191: the upsert of the message (with the `num` it was given,
if any), the cascade after it, and the result with the profile attached. -/
def persist (deps : Deps) (st : Store) (now : Nat) (m : ChatMessage) (num : Option Nat)
    (user : UserProfile) (removals : List Nat) (patches : List (Str × ProfilePatch)) : Outcome :=
  let up := findOneAndUpdate st.twitchCommands m num
  let st1 : Store := { st with twitchCommands := up.1 }
  match postUpsert deps now m with
  | .patch p =>
    { store := usersPatch st1 user.name p, removals := removals,
      patches := patches ++ [(user.name, p)],
      completion := .returned up.2 (applyPatch p user) }
  | .nothing =>
    { store := st1, removals := removals, patches := patches,
      completion := .returned up.2 user }
  | .returnUndefined =>
    { store := st1, removals := removals, patches := patches, completion := .undefined }
  | .typeError =>
    { store := st1, removals := removals, patches := patches, completion := .typeError }

/-- The method `create(message)` of `TwitchCommandsService`, called at clock
reading `now` on the state `st`. -/
def create (deps : Deps) (st : Store) (now : Nat) (m : ChatMessage) : Outcome :=
  let user := usersGet st m.username
  match matchArchive m.message with
  | some digits =>
    let question := findOneByNum st.twitchCommands (toNumber digits)
    match isModOrOwner m question with
    | none => { store := st, removals := [], patches := [], completion := .typeError }
    | some modOrOwner =>
      persist deps st now m none user (archiveRemovals question modOrOwner) []
  | none =>
    if isSubmission m.message then
      let args := (split ' ' m.message).tail
      if trim (join ' ' args) = [] then
        { store := st, removals := [], patches := [], completion := .undefined }
      else
        let count := counterIncrement st.counter
        let st1 := usersPatch { st with counter := count.1 } user.name (.last_seen now)
        persist deps st1 now m (some count.2) (applyPatch (.last_seen now) user) []
          [(user.name, .last_seen now)]
    else persist deps st now m none user [] []

/-! ## `find` and `remove` -/

/-- The characters matched by `\w`. -/
def isWordChar (c : Char) : Bool :=
  isDigit c || (97 ≤ c.toNat && c.toNat ≤ 122) || (65 ≤ c.toNat && c.toNat ≤ 90) || c == '_'

/-- The test of `/^(?!\\!)\w+/` (line 34): the text does not begin with a
backslash followed by `!`, and it begins with a word character. -/
def matchesPlainChat (s : Str) : Bool :=
  !startsWith ['\\', '!'] s &&
    match s with
    | c :: _ => isWordChar c
    | [] => false

/-- A value the option `commands` of a query may have. -/
inductive QueryValue where
  | bool (b : Bool)
  | str (s : Str)
  deriving DecidableEq

/-- The options `params.query` that `find` reads; `created_at` is a condition
on the field, handed to the store as it comes. -/
structure Query where
  commands : Option QueryValue
  user_id : Option Str
  created_at : Option (Option Nat → Bool)

/-- The argument of `find`. -/
structure Params where
  query : Option Query

/-- The object `query` that `find` hands to the store (lines 18 to 43); the
conditions on `deleted_at` and `ack` are always the same. -/
structure StoreQuery where
  created_at : Option Nat → Bool
  message : Option (Str → Bool)
  user_id : Option Str

/-- Six hours, in milliseconds. -/
def sixHours : Nat := 6 * 60 * 60 * 1000

/-- Lines 22 to 26: `created_at: { $gte: sub(new Date(), { hours: 6 }) }`; a
record without the field does not match. -/
def withinSixHours (now : Nat) (created_at : Option Nat) : Bool :=
  match created_at with
  | some t => now - sixHours ≤ t
  | none => false

/-- Lines 18 to 43: the query `find` builds from its argument. -/
def buildQuery (now : Nat) (params : Params) : StoreQuery :=
  let query : StoreQuery :=
    { created_at := withinSixHours now, message := none, user_id := none }
  match params.query with
  | none => query
  | some pq =>
    let q1 : StoreQuery :=
      if pq.commands = some (.str "false".toList) ∨ pq.commands = some (.bool false) then
        { query with message := some matchesPlainChat }
      else query
    let q2 : StoreQuery :=
      match pq.user_id with
      | some u => if u = [] then q1 else { q1 with user_id := some u }
      | none => q1
    match pq.created_at with
    | some cond => { q2 with created_at := cond }
    | none => q2

/-- Modelled from the spec: the documents a query of `find` selects in the
CommandRecord store: `deleted_at` equal to `null` (or absent), `ack` other than
`true`, and the conditions on `created_at`, `message` and `user_id`. -/
def matchesQuery (q : StoreQuery) (r : CommandRecord) : Bool :=
  r.deleted_at.isNone && q.created_at r.created_at && !truthy r.ack &&
    (match q.message with
      | some regex => regex r.message
      | none => true) &&
    (match q.user_id with
      | some u => r.user_id == u
      | none => true)

/-- The rank of a `created_at` in the sort of the store: an absent field comes
below every date. -/
def createdRank (created_at : Option Nat) : Nat :=
  match created_at with
  | some t => t + 1
  | none => 0

/-- The record `a` may come before `b` when sorting by `created_at: -1`. -/
def newerOrEqual (a b : CommandRecord) : Bool :=
  createdRank b.created_at ≤ createdRank a.created_at

/-- One step of the sort: the record goes before the first one that is not
newer. -/
def insertNewestFirst (r : CommandRecord) : List CommandRecord → List CommandRecord
  | [] => [r]
  | x :: xs => if newerOrEqual r x then r :: x :: xs else x :: insertNewestFirst r xs

/-- Modelled from the spec: the sort `{ created_at: -1 }` of the CommandRecord
store, newest first. -/
def sortNewestFirst : List CommandRecord → List CommandRecord
  | [] => []
  | r :: rs => insertNewestFirst r (sortNewestFirst rs)

/-- The method `find(params)` of `TwitchCommandsService`, called at clock
reading `now`: the documents the query selects, newest first, 1000 at most. -/
def find (st : Store) (now : Nat) (params : Params) : List CommandRecord :=
  (sortNewestFirst (st.twitchCommands.filter (matchesQuery (buildQuery now params)))).take 1000

/-- Modelled from the spec: `update({ id }, { $set: { deleted_at } })` of the
CommandRecord store: the first document whose `id` is the one given gets the
field, no document is added or dropped. -/
def setDeletedAt (id : Str) (now : Nat) : List CommandRecord → List CommandRecord
  | [] => []
  | r :: rest =>
    if r.id = id then { r with deleted_at := some now } :: rest
    else r :: setDeletedAt id now rest

/-- The method `remove(id)` of `TwitchCommandsService`, called at clock reading
`now`: the state it leaves and the value it returns. -/
def remove (st : Store) (now : Nat) (id : Str) : Store × Str :=
  ({ st with twitchCommands := setDeletedAt id now st.twitchCommands }, id)

/-! ## Running several dispatches -/

/-- Successive calls of `create`, each on the state the previous one left; the
completions in order and the last state. -/
def createAll (deps : Deps) : Store → List (Nat × ChatMessage) → List Completion × Store
  | st, [] => ([], st)
  | st, (now, m) :: rest =>
    let out := create deps st now m
    let r := createAll deps out.store rest
    (out.completion :: r.1, r.2)

/-- The `num` of the record a call returned, when it returned one with a `num`. -/
def Completion.num : Completion → Option Nat
  | .returned created _ => created.num
  | _ => none

/-! ## Concrete inputs -/

/-- A host that lowers ASCII letters only, with small reference tables. -/
def asciiDeps : Deps where
  toLowerCase := fun s => s.map Char.toLower
  toLowerCase_ascii := fun _ _ => rfl
  countries := fun k => if k = "fr".toList then some "France".toList else none
  fontAwesome := fun k => k = "rust".toList
  simpleIcons := fun k => k = "vue".toList
  pronounChoices := fun k => k = "they".toList

/-- A profile with nothing but its name. -/
def blankProfile (name : Str) : UserProfile :=
  { name := name, country := none, team := none, team_color := none, pronoun := none,
    status := none, last_seen := none }

/-- The state with no command, no counter document and blank profiles. -/
def emptyStore : Store :=
  { twitchCommands := [], counter := none, users := blankProfile }

/-- A chat message of user `alice` without badges. -/
def aliceSays (id text : String) : ChatMessage :=
  { id := id.toList, user_id := "u1".toList, username := "alice".toList, message := text.toList,
    badges := { moderator := false, broadcaster := false }, parsedMessage := none }

/-! ## Notions the statements use -/

/-- A submission whose body is not blank. -/
def isFilledSubmission (m : ChatMessage) : Prop :=
  isSubmission m.message = true ∧ trim (join ' ' (split ' ' m.message).tail) ≠ []

/-- Line 163: the colour a token stands for, lower-cased, trimmed and without
its first `#`. -/
def colorOf (deps : Deps) (t : Str) : Str :=
  replaceFirst '#' (trim (deps.toLowerCase t))

/-- The sixteen hexadecimal digits, letters in lower case. -/
def hexDigits : List Char :=
  ['0', '1', '2', '3', '4', '5', '6', '7', '8', '9', 'a', 'b', 'c', 'd', 'e', 'f']

/-- The value of `team_color` after a `team-color` command with token `t`. -/
def teamColorAfter (deps : Deps) (t : Str) (prior : Option Str) : Option Str :=
  if colorOf deps t = "clear".toList ∨ colorOf deps t = "remove".toList then none
  else if isHexColor (colorOf deps t) then some (colorOf deps t)
  else prior

/-- The four spellings of the command that clears the country. -/
def isCountryClear (s : Str) : Prop :=
  s = "!country clear".toList ∨ s = "!country remove".toList ∨
    s = "!flag clear".toList ∨ s = "!flag remove".toList

/-- The text matches one of the six patterns `create` tests. -/
def isRecognized (s : Str) : Bool :=
  (matchArchive s).isSome || isSubmission s || isHere s || isSetStatus s || isClearStatus s ||
    isProfileCommand s

/-- The number of stored records with a given message id. -/
def countId (cs : List CommandRecord) (id : Str) : Nat :=
  (cs.filter (fun r => r.id = id)).length

/-- The number of patterns of `create` a text matches. -/
def firedBranches (s : Str) : Nat :=
  (matchArchive s).isSome.toNat + (isSubmission s).toNat + (isHere s).toNat +
    (isSetStatus s).toNat + (isClearStatus s).toNat + (isProfileCommand s).toNat

/-- The number of fields among `country`, `team`, `team_color`, `pronoun`,
`status` and `last_seen` in which two profiles differ. -/
def changedFields (u v : UserProfile) : Nat :=
  (if u.country = v.country then 0 else 1) + (if u.team = v.team then 0 else 1) +
    (if u.team_color = v.team_color then 0 else 1) + (if u.pronoun = v.pronoun then 0 else 1) +
    (if u.status = v.status then 0 else 1) + (if u.last_seen = v.last_seen then 0 else 1)

/-- The reference tables have no entry under the empty string. -/
def tablesIgnoreEmpty (deps : Deps) : Prop :=
  deps.countries [] = none ∧ deps.fontAwesome [] = false ∧ deps.simpleIcons [] = false ∧
    deps.pronounChoices [] = false

/-- The command tokens that take an argument or a body. -/
def argumentCommands : List Str :=
  ["!country".toList, "!flag".toList, "!team".toList, "!team-color".toList,
    "!team-colour".toList, "!pronoun".toList, "!ask".toList, "!idea".toList, "!submit".toList]

/-- A call of `find` without query options. -/
def noOptions : Params := { query := none }

/-- A call of `find` with an empty query object. -/
def emptyQuery : Params :=
  { query := some { commands := none, user_id := none, created_at := none } }

/-- A call of `find` with the option `commands` and nothing else. -/
def commandsOption (v : QueryValue) : Params :=
  { query := some { commands := some v, user_id := none, created_at := none } }

/-! ## More concrete inputs -/

/-- A store holding question number 5, submitted by `bob`, live. -/
def storeWithQuestion5 : Store :=
  { twitchCommands :=
      [{ _id := 41, id := "q5".toList, num := some 5, message := "!ask why?".toList,
         user_id := "u2".toList, username := "bob".toList,
         badges := { moderator := false, broadcaster := false }, parsedMessage := none,
         created_at := some 10, deleted_at := none, archived := none, ack := none }],
    counter := some 5, users := blankProfile }

/-- A profile of `alice` whose team colour is `00ff9a`. -/
def storeWithColor : Store :=
  { emptyStore with
    users := fun n => { blankProfile n with team_color := some "00ff9a".toList } }

/-- A host like `asciiDeps` whose country table knows `fr` and `de`. -/
def twoCountries : Deps :=
  { asciiDeps with
    countries := fun k =>
      if k = "fr".toList then some "France".toList
      else if k = "de".toList then some "Germany".toList
      else none }

/-- A live record of chat, created at `t`. -/
def chatLine (key : Nat) (id text : String) (t : Nat) : CommandRecord :=
  { _id := key, id := id.toList, num := none, message := text.toList, user_id := "u1".toList,
    username := "alice".toList, badges := { moderator := false, broadcaster := false },
    parsedMessage := none, created_at := some t, deleted_at := none, archived := none,
    ack := none }

/-- A store with four lines of chat, in the order they came. -/
def chatStore : Store :=
  { emptyStore with
    twitchCommands :=
      [chatLine 1 "c1" "hello @bob" 1000, chatLine 2 "c2" "@bob hello" 2000,
        chatLine 3 "c3" "!ask x" 3000, chatLine 4 "c4" "¿que?" 4000] }

/-! ## Lemmas on the string primitives -/

theorem startsWith_iff (p s : Str) : startsWith p s = true ↔ ∃ r, s = p ++ r := by
  induction p generalizing s with
  | nil => simp [startsWith]
  | cons a p ih =>
    cases s with
    | nil => simp [startsWith]
    | cons c cs =>
      simp only [startsWith, Bool.and_eq_true, beq_iff_eq, ih, List.cons_append, List.cons.injEq]
      constructor
      · rintro ⟨rfl, r, rfl⟩
        exact ⟨r, rfl, rfl⟩
      · rintro ⟨r, rfl, rfl⟩
        exact ⟨rfl, r, rfl⟩

theorem dropStart_eq_some (p s r : Str) : dropStart p s = some r ↔ s = p ++ r := by
  induction p generalizing s with
  | nil => simp [dropStart, eq_comm]
  | cons a p ih =>
    cases s with
    | nil => simp [dropStart]
    | cons c cs =>
      by_cases h : a = c
      · subst h
        simp [dropStart, ih]
      · simp only [dropStart, beq_iff_eq, h, if_false, List.cons_append, List.cons.injEq]
        simp [Ne.symm h]

theorem split_ne_nil (sep : Char) (s : Str) : split sep s ≠ [] := by
  induction s with
  | nil => simp [split]
  | cons c cs ih =>
    unfold split
    split
    · simp
    · split <;> simp

theorem join_cons_cons (sep : Char) (t u : Str) (ts : List Str) :
    join sep (t :: u :: ts) = t ++ sep :: join sep (u :: ts) := rfl

theorem join_cons_of_ne_nil (sep : Char) (t : Str) (ts : List Str) (h : ts ≠ []) :
    join sep (t :: ts) = t ++ sep :: join sep ts := by
  cases ts with
  | nil => exact absurd rfl h
  | cons u us => rfl

theorem join_split (sep : Char) (s : Str) : join sep (split sep s) = s := by
  induction s with
  | nil => rfl
  | cons c cs ih =>
    unfold split
    split
    · rename_i h
      have hc : c = sep := by simpa using h
      rw [join_cons_of_ne_nil _ _ _ (split_ne_nil sep cs), ih, hc]
      rfl
    · split
      · rename_i h1 h2
        exact absurd h2 (split_ne_nil sep cs)
      · rename_i h1 t ts h2
        rw [h2] at ih
        cases ts with
        | nil =>
          simp only [join] at ih ⊢
          rw [ih]
        | cons u us =>
          rw [join_cons_cons] at ih ⊢
          rw [← ih]
          rfl

/-- The text is its first token, and then a space and the other tokens joined,
when there are other tokens. -/
theorem split_decompose (sep : Char) (s t : Str) (ts : List Str) (h : split sep s = t :: ts) :
    s = t ++ (if ts = [] then [] else sep :: join sep ts) := by
  have hj := join_split sep s
  rw [h] at hj
  cases ts with
  | nil => simpa [join] using hj.symm
  | cons u us => simpa [join_cons_cons] using hj.symm

theorem split_append_of_not_mem (sep : Char) (p s t : Str) (ts : List Str) (hp : sep ∉ p)
    (h : split sep s = t :: ts) : split sep (p ++ s) = (p ++ t) :: ts := by
  induction p with
  | nil => simpa using h
  | cons a p ih =>
    have ha : ¬ (a == sep) = true := by
      intro h
      exact hp (by simp [eq_comm.mp (beq_iff_eq.mp h)])
    have hp1 : sep ∉ p := fun h => hp (List.mem_cons_of_mem _ h)
    rw [List.cons_append]
    unfold split
    rw [if_neg ha, ih hp1]
    rfl

/-- The tokens of a text whose first token is `p`. -/
theorem split_append_sep (sep : Char) (p s : Str) (hp : sep ∉ p) :
    split sep (p ++ sep :: s) = p :: split sep s := by
  have h : split sep (sep :: s) = [] :: split sep s := by simp [split]
  simpa using split_append_of_not_mem sep p (sep :: s) [] (split sep s) hp h

theorem mem_of_mem_join_tail_split (sep : Char) (s : Str) (c : Char)
    (hc : c ∈ join sep (split sep s).tail) : c ∈ s := by
  cases h : split sep s with
  | nil => exact absurd h (split_ne_nil sep s)
  | cons t ts =>
    rw [h] at hc
    have hd := split_decompose sep s t ts h
    cases ts with
    | nil => simp [join] at hc
    | cons u us =>
      rw [hd]
      simp only [List.tail_cons] at hc
      simp [hc]

theorem trim_eq_nil_of_all_whiteSpace (s : Str) (h : ∀ c ∈ s, isWhiteSpace c = true) :
    trim s = [] := by
  have h1 : s.dropWhile isWhiteSpace = [] := by
    rw [List.dropWhile_eq_nil_iff]
    exact h
  simp [trim, trimStart, h1]

theorem mem_dropWhile {α : Type} (f : α → Bool) (l : List α) (a : α) (h : a ∈ l.dropWhile f) :
    a ∈ l :=
  (List.dropWhile_sublist f).subset h

theorem trim_eq_nil_iff (s : Str) : trim s = [] ↔ ∀ c ∈ s, isWhiteSpace c = true := by
  constructor
  · intro h
    have h1 : s.dropWhile isWhiteSpace = [] := by
      by_contra hne
      obtain ⟨a, l, hal⟩ := List.exists_cons_of_ne_nil hne
      have ha : ¬ isWhiteSpace a = true := by
        have := List.head_dropWhile_not isWhiteSpace s hne
        simpa [hal] using this
      have h2 : (a :: l).reverse.dropWhile isWhiteSpace = [] := by
        simpa [trim, trimStart, hal] using h
      rw [List.dropWhile_eq_nil_iff] at h2
      exact ha (h2 a (by simp))
    rwa [List.dropWhile_eq_nil_iff] at h1
  · exact trim_eq_nil_of_all_whiteSpace s

/-! ## Lemmas on `persist` and the upsert -/

theorem persist_removals (deps : Deps) (st : Store) (now : Nat) (m : ChatMessage)
    (num : Option Nat) (user : UserProfile) (removals : List Nat)
    (patches : List (Str × ProfilePatch)) :
    (persist deps st now m num user removals patches).removals = removals := by
  unfold persist
  split <;> rfl

theorem persist_twitchCommands (deps : Deps) (st : Store) (now : Nat) (m : ChatMessage)
    (num : Option Nat) (user : UserProfile) (removals : List Nat)
    (patches : List (Str × ProfilePatch)) :
    (persist deps st now m num user removals patches).store.twitchCommands =
      (findOneAndUpdate st.twitchCommands m num).1 := by
  unfold persist
  split <;> rfl

theorem persist_counter (deps : Deps) (st : Store) (now : Nat) (m : ChatMessage)
    (num : Option Nat) (user : UserProfile) (removals : List Nat)
    (patches : List (Str × ProfilePatch)) :
    (persist deps st now m num user removals patches).store.counter = st.counter := by
  unfold persist
  split <;> rfl

/-! ## C1: who may archive a question -/

/-- C1. When the text matches `!archive #?<digits>` and the question of that
number exists, `create` asks `vox/populi` to remove exactly that question (by
its `_id`) if the question is not archived, not soft-deleted, and the requester
is a moderator, the broadcaster or the question's own author; otherwise it asks
for no removal at all. -/
theorem archive_requests_removal_iff (deps : Deps) (st : Store) (now : Nat) (m : ChatMessage)
    (digits : Str) (q : CommandRecord)
    (hm : matchArchive m.message = some digits)
    (hq : findOneByNum st.twitchCommands (toNumber digits) = some q) :
    ((create deps st now m).removals = [q._id] ↔
      (q.archived ≠ some true ∧ q.deleted_at = none ∧
        (m.badges.moderator = true ∨ m.badges.broadcaster = true ∨ q.user_id = m.user_id))) ∧
    ((create deps st now m).removals = [q._id] ∨ (create deps st now m).removals = []) := by
  unfold create
  simp only [hm, hq]
  rcases hmod : m.badges.moderator with _ | _ <;>
  rcases hbro : m.badges.broadcaster with _ | _ <;>
  by_cases hown : q.user_id = m.user_id <;>
  rcases harch : q.archived with _ | _ | _ <;>
  rcases hdel : q.deleted_at with _ | d <;>
  simp [isModOrOwner, isNotArchivedOrDeleted, archiveRemovals, truthy, persist_removals, hmod,
    hbro, hown, harch, hdel]

/-- The instance of C1 in the specification: a moderator archiving the live
question 5 triggers its removal, an unrelated user without badges does not. -/
theorem archive_requests_removal_iff_witness :
    (create asciiDeps storeWithQuestion5 100
        { aliceSays "m9" "!archive #5" with
          badges := { moderator := true, broadcaster := false } }).removals = [41] ∧
    (create asciiDeps storeWithQuestion5 100 (aliceSays "m9" "!archive #5")).removals = [] := by
  have hq : findOneByNum storeWithQuestion5.twitchCommands (toNumber "5".toList) =
      some (storeWithQuestion5.twitchCommands.head (by decide)) := by decide
  constructor
  · exact (archive_requests_removal_iff asciiDeps storeWithQuestion5 100
      { aliceSays "m9" "!archive #5" with badges := { moderator := true, broadcaster := false } }
      "5".toList _ (by decide) hq).1.mpr (by decide)
  · rcases (archive_requests_removal_iff asciiDeps storeWithQuestion5 100
      (aliceSays "m9" "!archive #5") "5".toList _ (by decide) hq).2 with h | h
    · exact absurd h (by decide)
    · exact h

/-! ## C2: the number a submission receives -/

/-- A submission text is no archive request and no command of the cascade after
the upsert. -/
theorem submission_excludes (s : Str) (h : isSubmission s = true) :
    matchArchive s = none ∧ isHere s = false ∧ isSetStatus s = false ∧
      isClearStatus s = false ∧ isProfileCommand s = false := by
  simp only [isSubmission, Bool.or_eq_true, startsWith_iff] at h
  rcases h with (⟨r, rfl⟩ | ⟨r, rfl⟩) | ⟨r, rfl⟩ <;> exact ⟨rfl, rfl, rfl, rfl, rfl⟩

theorem postUpsert_of_submission (deps : Deps) (now : Nat) (m : ChatMessage)
    (h : isSubmission m.message = true) : postUpsert deps now m = .nothing := by
  obtain ⟨-, h1, h2, h3, h4⟩ := submission_excludes m.message h
  simp [postUpsert, h1, h2, h3, h4]

theorem persist_of_nothing (deps : Deps) (st : Store) (now : Nat) (m : ChatMessage)
    (num : Option Nat) (user : UserProfile) (removals : List Nat)
    (patches : List (Str × ProfilePatch)) (h : postUpsert deps now m = .nothing) :
    persist deps st now m num user removals patches =
      { store := { st with twitchCommands := (findOneAndUpdate st.twitchCommands m num).1 },
        removals := removals, patches := patches,
        completion := .returned (findOneAndUpdate st.twitchCommands m num).2 user } := by
  simp [persist, h]

theorem upsertIn_snd_mem (all : List CommandRecord) (m : ChatMessage) (num : Option Nat)
    (cs : List CommandRecord) : (upsertIn all m num cs).2 ∈ (upsertIn all m num cs).1 := by
  induction cs with
  | nil => simp [upsertIn]
  | cons r rest ih =>
    unfold upsertIn
    split
    · simp
    · exact List.mem_cons_of_mem _ ih

/-- The fields the upsert writes from the message. -/
theorem upsertIn_snd_fields (all : List CommandRecord) (m : ChatMessage) (num : Option Nat)
    (cs : List CommandRecord) :
    (upsertIn all m num cs).2.id = m.id ∧ (upsertIn all m num cs).2.message = m.message ∧
    (upsertIn all m num cs).2.user_id = m.user_id ∧
    (upsertIn all m num cs).2.username = m.username ∧
    (upsertIn all m num cs).2.badges = m.badges ∧
    (∀ q, m.parsedMessage = some q → (upsertIn all m num cs).2.parsedMessage = some q) := by
  induction cs with
  | nil => simp [upsertIn, newRecord]
  | cons r rest ih =>
    unfold upsertIn
    split
    · refine ⟨rfl, rfl, rfl, rfl, rfl, ?_⟩
      intro q hq
      simp [setMessage, hq]
    · exact ih

/-- The `num` of the stored document: the one the message was given, else the
one the document of that id already had. -/
theorem upsertIn_snd_num (all : List CommandRecord) (m : ChatMessage) (num : Option Nat)
    (cs : List CommandRecord) :
    (upsertIn all m num cs).2.num =
      match num with
      | some n => some n
      | none => (cs.find? (fun r => r.id = m.id)).bind (fun r => r.num) := by
  induction cs with
  | nil => cases num <;> simp [upsertIn, newRecord]
  | cons r rest ih =>
    unfold upsertIn
    split
    · rename_i h
      cases num <;> simp [setMessage, List.find?, h]
    · rename_i h
      rw [ih]
      cases num <;> simp [List.find?, h]

/-- What `create` does with a submission whose body is not blank. -/
theorem create_of_submission (deps : Deps) (st : Store) (now : Nat) (m : ChatMessage)
    (hs : isSubmission m.message = true)
    (hb : trim (join ' ' (split ' ' m.message).tail) ≠ []) :
    create deps st now m =
      { store :=
          { twitchCommands :=
              (findOneAndUpdate st.twitchCommands m (some (st.counter.getD 0 + 1))).1,
            counter := some (st.counter.getD 0 + 1),
            users := (usersPatch st m.username (.last_seen now)).users },
        removals := [],
        patches := [(m.username, .last_seen now)],
        completion := .returned
          (findOneAndUpdate st.twitchCommands m (some (st.counter.getD 0 + 1))).2
          (applyPatch (.last_seen now) (usersGet st m.username)) } := by
  have ha := (submission_excludes m.message hs).1
  unfold create
  simp only [ha, hs, if_true, if_neg hb]
  rw [persist_of_nothing _ _ _ _ _ _ _ _ (postUpsert_of_submission deps now m hs)]
  rfl

theorem createAll_nums (deps : Deps) (msgs : List (Nat × ChatMessage)) :
    ∀ st : Store, (∀ x ∈ msgs, isFilledSubmission x.2) →
      (createAll deps st msgs).1.map Completion.num =
        (List.range msgs.length).map (fun i => some (st.counter.getD 0 + 1 + i)) := by
  induction msgs with
  | nil => intro st _; rfl
  | cons x rest ih =>
    intro st h
    obtain ⟨hs, hb⟩ := h x (List.mem_cons_self _ _)
    have hrest : ∀ y ∈ rest, isFilledSubmission y.2 := fun y hy => h y (List.mem_cons_of_mem _ hy)
    have hc := create_of_submission deps st x.1 x.2 hs hb
    have hnum := upsertIn_snd_num st.twitchCommands x.2 (some (st.counter.getD 0 + 1))
      st.twitchCommands
    simp only [createAll, List.map_cons, List.length_cons, List.range_succ_eq_map]
    rw [ih _ hrest, hc]
    simp only [Completion.num, findOneAndUpdate, hnum, List.map_map, Option.getD_some]
    refine congrArg₂ _ rfl (List.map_congr_left ?_)
    intro i _
    simp only [Function.comp, Nat.succ_eq_add_one]
    congr 1
    omega

/-- C2. A submission (`!ask`, `!idea`, `!submit`) whose text after the command
token is not blank moves the `question` counter up by exactly one (from 0 when
there is no counter document yet), and the record it stores and returns has
that new value as its `num`; so successive submissions get the numbers that
follow the counter one by one, which are strictly increasing and pairwise
distinct. -/
theorem submission_num_is_next (deps : Deps) :
    (∀ (st : Store) (now : Nat) (m : ChatMessage), isFilledSubmission m →
      (create deps st now m).store.counter = some (st.counter.getD 0 + 1) ∧
      ∃ created user, (create deps st now m).completion = .returned created user ∧
        created ∈ (create deps st now m).store.twitchCommands ∧ created.id = m.id ∧
        created.num = some (st.counter.getD 0 + 1)) ∧
    (∀ (st : Store) (msgs : List (Nat × ChatMessage)), (∀ x ∈ msgs, isFilledSubmission x.2) →
      (createAll deps st msgs).1.map Completion.num =
        (List.range msgs.length).map (fun i => some (st.counter.getD 0 + 1 + i)) ∧
      ((List.range msgs.length).map (fun i => st.counter.getD 0 + 1 + i)).Pairwise (· < ·) ∧
      ((List.range msgs.length).map (fun i => st.counter.getD 0 + 1 + i)).Nodup) := by
  refine ⟨?_, ?_⟩
  · intro st now m h
    rw [create_of_submission deps st now m h.1 h.2]
    refine ⟨rfl, _, _, rfl, upsertIn_snd_mem _ _ _ _, (upsertIn_snd_fields _ _ _ _).1, ?_⟩
    exact upsertIn_snd_num _ _ _ _
  · intro st msgs h
    have hp : ((List.range msgs.length).map
        (fun i => st.counter.getD 0 + 1 + i)).Pairwise (· < ·) := by
      rw [List.pairwise_map]
      exact List.Pairwise.imp (fun hab => Nat.add_lt_add_left hab _)
        (List.pairwise_lt_range msgs.length)
    exact ⟨createAll_nums deps msgs st h, hp, hp.imp (fun hab => Nat.ne_of_lt hab)⟩

/-- On a store whose counter stands at 5, one submission moves it to 6, and
three submissions in a row get 6, 7 and 8. -/
theorem submission_num_is_next_witness :
    (create asciiDeps storeWithQuestion5 100 (aliceSays "a" "!ask one")).store.counter = some 6 ∧
    (createAll asciiDeps storeWithQuestion5
        [(1, aliceSays "a" "!ask one"), (2, aliceSays "b" "!idea two"),
          (3, aliceSays "c" "!submit three")]).1.map Completion.num = [some 6, some 7, some 8] := by
  have h1 := ((submission_num_is_next asciiDeps).1 storeWithQuestion5 100
    (aliceSays "a" "!ask one") ⟨by decide, by decide⟩).1
  have h := ((submission_num_is_next asciiDeps).2 storeWithQuestion5
    [(1, aliceSays "a" "!ask one"), (2, aliceSays "b" "!idea two"),
      (3, aliceSays "c" "!submit three")] (by
      intro x hx
      simp only [List.mem_cons, List.mem_singleton, List.not_mem_nil, or_false] at hx
      rcases hx with rfl | rfl | rfl <;> exact ⟨by decide, by decide⟩)).1
  refine ⟨h1, ?_⟩
  rw [h]
  rfl

/-! ## C3: a blank submission -/

theorem split_tail_append (sep : Char) (p s : Str) (hp : sep ∉ p) :
    (split sep (p ++ s)).tail = (split sep s).tail := by
  cases h : split sep s with
  | nil => exact absurd h (split_ne_nil sep s)
  | cons t ts => rw [split_append_of_not_mem sep p s t ts hp h]; rfl

/-- C3. When the text is `!ask`, `!idea` or `!submit` followed by nothing or by
white space only, `create` returns at once: the counter and the stored records
are as before (so no record gets a `num`), and no collaborator is called. -/
theorem blank_submission_changes_nothing (deps : Deps) (st : Store) (now : Nat)
    (m : ChatMessage) (cmd w : Str)
    (hcmd : cmd = "!ask".toList ∨ cmd = "!idea".toList ∨ cmd = "!submit".toList)
    (hw : ∀ c ∈ w, isWhiteSpace c = true) (hm : m.message = cmd ++ w) :
    (create deps st now m).store.counter = st.counter ∧
    (create deps st now m).store.twitchCommands = st.twitchCommands ∧
    (create deps st now m).patches = [] ∧ (create deps st now m).removals = [] ∧
    (create deps st now m).completion = .undefined := by
  have hs : isSubmission m.message = true := by
    rw [hm]
    simp only [isSubmission, Bool.or_eq_true, startsWith_iff]
    rcases hcmd with rfl | rfl | rfl
    · exact Or.inl (Or.inl ⟨w, rfl⟩)
    · exact Or.inl (Or.inr ⟨w, rfl⟩)
    · exact Or.inr ⟨w, rfl⟩
  have hsp : (' ' : Char) ∉ cmd := by rcases hcmd with rfl | rfl | rfl <;> decide
  have hb : trim (join ' ' (split ' ' m.message).tail) = [] := by
    rw [hm, split_tail_append ' ' cmd w hsp]
    exact trim_eq_nil_of_all_whiteSpace _
      (fun c hc => hw c (mem_of_mem_join_tail_split ' ' w c hc))
  have ha := (submission_excludes m.message hs).1
  unfold create
  simp only [ha, hs, hb, if_true, and_self]

/-- The text `!ask` followed by a space and a tab. -/
theorem blank_submission_changes_nothing_witness :
    (create asciiDeps storeWithQuestion5 100 (aliceSays "m1" "!ask \t")).store.counter = some 5 ∧
    (create asciiDeps storeWithQuestion5 100 (aliceSays "m1" "!ask \t")).store.twitchCommands =
      storeWithQuestion5.twitchCommands :=
  have h := blank_submission_changes_nothing asciiDeps storeWithQuestion5 100
    (aliceSays "m1" "!ask \t") "!ask".toList " \t".toList (Or.inl rfl) (by decide) rfl
  ⟨h.1, h.2.1⟩

/-! ## C4: an archive request for a question that does not exist -/

/-- C4. On a store without question 7, the request `!archive #7` of a user with
neither badge ends in a TypeError (line 80 reads `user_id` of `null`) before
the upsert: nothing is recorded. -/
theorem archive_of_missing_question_throws :
    (create asciiDeps emptyStore 100 (aliceSays "m1" "!archive #7")).completion = .typeError ∧
    (create asciiDeps emptyStore 100 (aliceSays "m1" "!archive #7")).store.twitchCommands = [] := by
  decide

/-! ## C5: the persistence step -/

/-- An archive request is no submission and no command of the cascade after the
upsert. -/
theorem archive_excludes (s digits : Str) (h : matchArchive s = some digits) :
    isSubmission s = false ∧ isHere s = false ∧ isSetStatus s = false ∧
      isClearStatus s = false ∧ isProfileCommand s = false := by
  unfold matchArchive at h
  split at h
  · exact absurd h (by simp)
  · rename_i r hr
    rw [dropStart_eq_some] at hr
    subst hr
    exact ⟨rfl, rfl, rfl, rfl, rfl⟩

/-- What `create` does with an archive request that does not throw. -/
theorem create_of_archive (deps : Deps) (st : Store) (now : Nat) (m : ChatMessage)
    (digits : Str) (b : Bool) (hm : matchArchive m.message = some digits)
    (hb : isModOrOwner m (findOneByNum st.twitchCommands (toNumber digits)) = some b) :
    create deps st now m =
      persist deps st now m none (usersGet st m.username)
        (archiveRemovals (findOneByNum st.twitchCommands (toNumber digits)) b) [] := by
  unfold create
  simp only [hm, hb]

/-- What `create` does with a text that is neither an archive request nor a
submission. -/
theorem create_of_other (deps : Deps) (st : Store) (now : Nat) (m : ChatMessage)
    (ha : matchArchive m.message = none) (hs : isSubmission m.message = false) :
    create deps st now m = persist deps st now m none (usersGet st m.username) [] [] := by
  unfold create
  simp [ha, hs]

/-- An archive request does not throw when the question exists or the
requester has a badge. -/
theorem isModOrOwner_isSome (m : ChatMessage) (question : Option CommandRecord)
    (h : question = none → m.badges.moderator = true ∨ m.badges.broadcaster = true) :
    ∃ b, isModOrOwner m question = some b := by
  unfold isModOrOwner
  split
  · exact ⟨true, rfl⟩
  · rename_i hb
    cases question with
    | none =>
      rcases h rfl with h1 | h1 <;> simp [h1] at hb
    | some q => exact ⟨_, rfl⟩

/-- The document the persistence step leaves in the collection. -/
theorem persist_stores (deps : Deps) (st : Store) (now : Nat) (m : ChatMessage)
    (num : Option Nat) (user : UserProfile) (removals : List Nat)
    (patches : List (Str × ProfilePatch)) :
    ∃ r ∈ (persist deps st now m num user removals patches).store.twitchCommands,
      r.id = m.id ∧ r.message = m.message ∧ r.user_id = m.user_id ∧
      r.username = m.username ∧ r.badges = m.badges ∧
      (∀ q, m.parsedMessage = some q → r.parsedMessage = some q) ∧
      r.num = match num with
        | some n => some n
        | none => (st.twitchCommands.find? (fun r => r.id = m.id)).bind (fun r => r.num) := by
  rw [persist_twitchCommands]
  obtain ⟨h1, h2, h3, h4, h5, h6⟩ := upsertIn_snd_fields st.twitchCommands m num st.twitchCommands
  exact ⟨_, upsertIn_snd_mem st.twitchCommands m num st.twitchCommands, h1, h2, h3, h4, h5, h6,
    upsertIn_snd_num _ _ _ _⟩

/-- C5, as the claim states it, fails: after `!ask` with an empty body no record
with the message's id is in the store. -/
theorem blank_submission_is_not_persisted :
    ¬ ∃ r ∈ (create asciiDeps emptyStore 100 (aliceSays "m1" "!ask")).store.twitchCommands,
      r.id = "m1".toList := by
  decide

/-- C5, amended. For every message that is not a submission with a blank body
(and, when it is an archive request for a question that does not exist, comes
from a requester with a badge), `create` executes the persistence step: after
the call the store holds a record with the message's id whose fields are those
of the message, and whose `num` is the new counter value for a submission and
otherwise the one the record of that id had before (absent for a new id). -/
theorem create_persists_message (deps : Deps) (st : Store) (now : Nat) (m : ChatMessage)
    (hsub : isSubmission m.message = true → trim (join ' ' (split ' ' m.message).tail) ≠ [])
    (harch : ∀ digits, matchArchive m.message = some digits →
      findOneByNum st.twitchCommands (toNumber digits) = none →
      m.badges.moderator = true ∨ m.badges.broadcaster = true) :
    ∃ r ∈ (create deps st now m).store.twitchCommands,
      r.id = m.id ∧ r.message = m.message ∧ r.user_id = m.user_id ∧
      r.username = m.username ∧ r.badges = m.badges ∧
      (∀ q, m.parsedMessage = some q → r.parsedMessage = some q) ∧
      r.num = if isSubmission m.message = true then some (st.counter.getD 0 + 1)
        else (st.twitchCommands.find? (fun r => r.id = m.id)).bind (fun r => r.num) := by
  cases ha : matchArchive m.message with
  | some digits =>
    obtain ⟨b, hb⟩ := isModOrOwner_isSome m _ (harch digits ha)
    have hs := (archive_excludes m.message digits ha).1
    rw [create_of_archive deps st now m digits b ha hb, hs]
    simpa using persist_stores deps st now m none (usersGet st m.username) _ []
  | none =>
    cases hs : isSubmission m.message with
    | true =>
      rw [create_of_submission deps st now m hs (hsub hs)]
      obtain ⟨h1, h2, h3, h4, h5, h6⟩ := upsertIn_snd_fields st.twitchCommands m
        (some (st.counter.getD 0 + 1)) st.twitchCommands
      have hn := upsertIn_snd_num st.twitchCommands m (some (st.counter.getD 0 + 1))
        st.twitchCommands
      exact ⟨_, upsertIn_snd_mem st.twitchCommands m _ st.twitchCommands, h1, h2, h3, h4, h5, h6,
        hn⟩
    | false =>
      rw [create_of_other deps st now m ha hs]
      simpa using persist_stores deps st now m none (usersGet st m.username) [] []

/-- A plain chat line is stored under its id. -/
theorem create_persists_message_witness :
    ∃ r ∈ (create asciiDeps emptyStore 100 (aliceSays "m1" "hello there")).store.twitchCommands,
      r.id = "m1".toList ∧ r.message = "hello there".toList :=
  have ⟨r, hr, h1, h2, _⟩ := create_persists_message asciiDeps emptyStore 100
    (aliceSays "m1" "hello there") (by decide) (by decide)
  ⟨r, hr, h1, h2⟩

/-! ## C6: what `create` returns -/

theorem split_of_not_mem (sep : Char) (s : Str) (h : sep ∉ s) : split sep s = [s] := by
  induction s with
  | nil => rfl
  | cons c cs ih =>
    have hc : ¬ (c == sep) = true := by
      intro hc
      exact h (by simp [eq_comm.mp (beq_iff_eq.mp hc)])
    unfold split
    rw [if_neg hc, ih (fun hm => h (List.mem_cons_of_mem _ hm))]

theorem not_mem_of_split_singleton (sep : Char) (s t : Str) (h : split sep s = [t]) :
    sep ∉ s := by
  induction s generalizing t with
  | nil => simp
  | cons c cs ih =>
    unfold split at h
    split at h
    · have hne := split_ne_nil sep cs
      simp only [List.cons.injEq] at h
      exact absurd h.2 hne
    · rename_i hc
      cases hcs : split sep cs with
      | nil => exact absurd hcs (split_ne_nil sep cs)
      | cons u us =>
        rw [hcs] at h
        simp only [List.cons.injEq] at h
        have hus : us = [] := h.2
        subst hus
        have hcs1 := ih u hcs
        intro hm
        rcases List.mem_cons.mp hm with hm | hm
        · exact hc (by simp [hm])
        · exact hcs1 hm

theorem usersGet_usersPatch (st : Store) (name : Str) (p : ProfilePatch) :
    usersGet (usersPatch st name p) name = applyPatch p (usersGet st name) := by
  cases p <;> simp [usersGet, usersPatch, applyPatch]

/-- With a token after the command the profile branch ends in a patch or in
nothing. -/
theorem profileStep_cases (deps : Deps) (text : Str) (h : ' ' ∈ text) :
    (∃ p, profileStep deps text = .patch p) ∨ profileStep deps text = .nothing := by
  unfold profileStep
  cases hs : split ' ' text with
  | nil => exact absurd hs (split_ne_nil _ _)
  | cons tok args =>
    cases args with
    | nil => exact absurd h (not_mem_of_split_singleton ' ' text tok hs)
    | cons a rest =>
      simp only []
      split_ifs <;>
        first
        | exact Or.inl ⟨_, rfl⟩
        | exact Or.inr rfl
        | (split <;> first | exact Or.inl ⟨_, rfl⟩ | exact Or.inr rfl)

/-- Without a space in the text the profile branch returns at line 131. -/
theorem profileStep_of_no_space (deps : Deps) (text : Str) (h : ' ' ∉ text) :
    profileStep deps text = .returnUndefined := by
  unfold profileStep
  rw [split_of_not_mem ' ' text h]

theorem postUpsert_cases (deps : Deps) (now : Nat) (m : ChatMessage)
    (hprof : isProfileCommand m.message = true → ' ' ∈ m.message) :
    (∃ p, postUpsert deps now m = .patch p) ∨ postUpsert deps now m = .nothing := by
  unfold postUpsert
  split_ifs with h1 h2 h3 h4
  · exact Or.inl ⟨_, rfl⟩
  · cases hs : split ' ' (parsedOrMessage m) with
    | nil => exact absurd hs (split_ne_nil _ _)
    | cons tok args => exact Or.inl ⟨_, rfl⟩
  · exact Or.inl ⟨_, rfl⟩
  · exact profileStep_cases deps m.message (hprof h4)
  · exact Or.inr rfl

theorem persist_returned (deps : Deps) (st : Store) (now : Nat) (m : ChatMessage)
    (num : Option Nat) (removals : List Nat) (patches : List (Str × ProfilePatch))
    (hpost : (∃ p, postUpsert deps now m = .patch p) ∨ postUpsert deps now m = .nothing) :
    ∃ created user,
      (persist deps st now m num (usersGet st m.username) removals patches).completion =
        .returned created user ∧
      created ∈
        (persist deps st now m num (usersGet st m.username) removals patches).store.twitchCommands ∧
      created.id = m.id ∧
      user = usersGet
        (persist deps st now m num (usersGet st m.username) removals patches).store
        m.username := by
  have hmem := upsertIn_snd_mem st.twitchCommands m num st.twitchCommands
  have hid := (upsertIn_snd_fields st.twitchCommands m num st.twitchCommands).1
  rcases hpost with ⟨p, hp⟩ | hp
  · refine ⟨(findOneAndUpdate st.twitchCommands m num).2,
      applyPatch p (usersGet st m.username), ?_, ?_, hid, ?_⟩
    · simp [persist, hp]
    · simpa [persist, hp, usersPatch] using hmem
    · simp only [persist, hp]
      exact (usersGet_usersPatch _ _ _).symm
  · refine ⟨(findOneAndUpdate st.twitchCommands m num).2, usersGet st m.username, ?_, ?_, hid, ?_⟩
    · simp [persist, hp]
    · simpa [persist, hp] using hmem
    · simp only [persist, hp]
      rfl

/-- A command of the profile branch is no archive request, no submission and no
other command of the cascade after the upsert. -/
theorem profileCommand_excludes (s : Str) (h : isProfileCommand s = true) :
    matchArchive s = none ∧ isSubmission s = false ∧ isHere s = false ∧
      isSetStatus s = false ∧ isClearStatus s = false := by
  simp only [isProfileCommand, Bool.or_eq_true, startsWith_iff] at h
  rcases h with ((((⟨r, rfl⟩ | ⟨r, rfl⟩) | ⟨r, rfl⟩) | ⟨r, rfl⟩) | ⟨r, rfl⟩) | ⟨r, rfl⟩ <;>
    exact ⟨rfl, rfl, rfl, rfl, rfl⟩

/-- Line 131: a `country`, `flag`, `team`, `team-color`, `team-colour` or
`pronoun` command whose text has no space is stored by the upsert, sends no
patch, and the call returns `undefined`. -/
theorem profile_command_without_token (deps : Deps) (st : Store) (now : Nat) (m : ChatMessage)
    (hp : isProfileCommand m.message = true) (hsp : ' ' ∉ m.message) :
    create deps st now m =
      { store := { st with twitchCommands := (findOneAndUpdate st.twitchCommands m none).1 },
        removals := [], patches := [], completion := .undefined } := by
  obtain ⟨ha, hs, h1, h2, h3⟩ := profileCommand_excludes m.message hp
  rw [create_of_other deps st now m ha hs]
  have hpost : postUpsert deps now m = .returnUndefined := by
    simp [postUpsert, h1, h2, h3, hp, profileStep_of_no_space deps m.message hsp]
  simp [persist, hpost]

/-- C6, as the claim states it, fails: for `!idea` followed by spaces only
`create` returns `undefined`. -/
theorem blank_idea_returns_undefined :
    (create asciiDeps emptyStore 100 (aliceSays "m1" "!idea  ")).completion = .undefined := by
  decide

/-- C6, amended. A submission with a blank body is rejected at line 86 and
`create` returns `undefined` for it; for every other message `create` returns
the stored CommandRecord with the author's profile, as it stands after the
call, attached. Two cases are left aside: a `country`, `flag`, `team`,
`team-color`, `team-colour` or `pronoun` command whose text has no space, and
an archive request for a question that does not exist from a requester
without a badge. -/
theorem create_returns_record (deps : Deps) (st : Store) (now : Nat) (m : ChatMessage) :
    ((isSubmission m.message = true → trim (join ' ' (split ' ' m.message).tail) ≠ []) →
      (isProfileCommand m.message = true → ' ' ∈ m.message) →
      (∀ digits, matchArchive m.message = some digits →
        findOneByNum st.twitchCommands (toNumber digits) = none →
        m.badges.moderator = true ∨ m.badges.broadcaster = true) →
      ∃ created user, (create deps st now m).completion = .returned created user ∧
        created ∈ (create deps st now m).store.twitchCommands ∧ created.id = m.id ∧
        user = usersGet (create deps st now m).store m.username) ∧
    (isSubmission m.message = true → trim (join ' ' (split ' ' m.message).tail) = [] →
      (create deps st now m).completion = .undefined) := by
  refine ⟨?_, ?_⟩
  · intro hsub hprof harch
    have hpost := postUpsert_cases deps now m hprof
    cases ha : matchArchive m.message with
    | some digits =>
      obtain ⟨b, hb⟩ := isModOrOwner_isSome m _ (harch digits ha)
      rw [create_of_archive deps st now m digits b ha hb]
      exact persist_returned deps st now m none _ [] hpost
    | none =>
      cases hs : isSubmission m.message with
      | true =>
        rw [create_of_submission deps st now m hs (hsub hs)]
        exact ⟨_, _, rfl, upsertIn_snd_mem _ _ _ _, (upsertIn_snd_fields _ _ _ _).1,
          (usersGet_usersPatch _ _ _).symm⟩
      | false =>
        rw [create_of_other deps st now m ha hs]
        exact persist_returned deps st now m none [] [] hpost
  · intro hs hb
    have ha := (submission_excludes m.message hs).1
    unfold create
    simp only [ha, hs, hb, if_true]

/-- The command `!country fr` returns its record with the patched profile, and
`!ask` followed by a space and a tab returns `undefined`. -/
theorem create_returns_record_witness :
    (∃ created user,
      (create asciiDeps emptyStore 100 (aliceSays "m1" "!country fr")).completion =
        .returned created user ∧ created.id = "m1".toList ∧
      user = usersGet (create asciiDeps emptyStore 100 (aliceSays "m1" "!country fr")).store
        "alice".toList) ∧
    (create asciiDeps emptyStore 100 (aliceSays "m2" "!ask \t")).completion = .undefined :=
  have ⟨created, user, h1, _, h3, h4⟩ := (create_returns_record asciiDeps emptyStore 100
    (aliceSays "m1" "!country fr")).1 (by decide) (by decide) (by decide)
  ⟨⟨created, user, h1, h3, h4⟩,
    (create_returns_record asciiDeps emptyStore 100 (aliceSays "m2" "!ask \t")).2
      (by decide) (by decide)⟩

/-! ## C7: the team colour -/

theorem profileStep_team_color (deps : Deps) (text cmd t : Str) (rest : List Str)
    (hcmd : cmd = "!team-color".toList ∨ cmd = "!team-colour".toList)
    (hs : split ' ' text = cmd :: t :: rest) :
    profileStep deps text =
      if colorOf deps t = "clear".toList ∨ colorOf deps t = "remove".toList then
        .patch (.team_color none)
      else if isHexColor (colorOf deps t) then .patch (.team_color (some (colorOf deps t)))
      else .nothing := by
  unfold profileStep
  rw [hs]
  rcases hcmd with rfl | rfl
  · simp only []
    rw [if_neg (by decide), if_neg (by decide), if_pos (by decide)]
    rfl
  · simp only []
    rw [if_neg (by decide), if_neg (by decide), if_pos (by decide)]
    rfl

/-- A text whose first token is `!team-color` or `!team-colour`, followed by
another token, reaches the profile branch. -/
theorem team_color_text (text cmd t : Str) (rest : List Str)
    (hcmd : cmd = "!team-color".toList ∨ cmd = "!team-colour".toList)
    (hs : split ' ' text = cmd :: t :: rest) :
    matchArchive text = none ∧ isSubmission text = false ∧ isHere text = false ∧
      isSetStatus text = false ∧ isClearStatus text = false ∧ isProfileCommand text = true := by
  have hd := split_decompose ' ' text cmd (t :: rest) hs
  simp only [reduceCtorEq, if_false] at hd
  rw [hd]
  rcases hcmd with rfl | rfl <;> exact ⟨rfl, rfl, rfl, rfl, rfl, rfl⟩

theorem persist_of_patch (deps : Deps) (st : Store) (now : Nat) (m : ChatMessage)
    (num : Option Nat) (user : UserProfile) (removals : List Nat)
    (patches : List (Str × ProfilePatch)) (p : ProfilePatch)
    (h : postUpsert deps now m = .patch p) :
    persist deps st now m num user removals patches =
      { store := usersPatch
          { st with twitchCommands := (findOneAndUpdate st.twitchCommands m num).1 } user.name p,
        removals := removals, patches := patches ++ [(user.name, p)],
        completion := .returned (findOneAndUpdate st.twitchCommands m num).2
          (applyPatch p user) } := by
  simp [persist, h]

/-- What `create` does with a `team-color` command, in the terms of the
source. -/
theorem create_of_team_color (deps : Deps) (st : Store) (now : Nat) (m : ChatMessage)
    (cmd t : Str) (rest : List Str)
    (hcmd : cmd = "!team-color".toList ∨ cmd = "!team-colour".toList)
    (hs : split ' ' m.message = cmd :: t :: rest) :
    (∃ created user, (create deps st now m).completion = .returned created user ∧
      user.team_color = teamColorAfter deps t (st.users m.username).team_color) ∧
    ((create deps st now m).store.users m.username).team_color =
      teamColorAfter deps t (st.users m.username).team_color ∧
    (create deps st now m).patches =
      if colorOf deps t = "clear".toList ∨ colorOf deps t = "remove".toList then
        [(m.username, .team_color none)]
      else if isHexColor (colorOf deps t) then [(m.username, .team_color (some (colorOf deps t)))]
      else [] := by
  obtain ⟨ha, hsub, h1, h2, h3, h4⟩ := team_color_text m.message cmd t rest hcmd hs
  have hpost : postUpsert deps now m = profileStep deps m.message := by
    simp [postUpsert, h1, h2, h3, h4]
  rw [profileStep_team_color deps m.message cmd t rest hcmd hs] at hpost
  rw [create_of_other deps st now m ha hsub]
  unfold teamColorAfter
  by_cases hc : colorOf deps t = "clear".toList ∨ colorOf deps t = "remove".toList
  · rw [if_pos hc] at hpost
    rw [persist_of_patch _ _ _ _ _ _ _ _ _ hpost, if_pos hc, if_pos hc]
    exact ⟨⟨_, _, rfl, rfl⟩, by simp [usersPatch, usersGet, applyPatch], rfl⟩
  · rw [if_neg hc] at hpost
    rw [if_neg hc, if_neg hc]
    by_cases hx : isHexColor (colorOf deps t) = true
    · rw [if_pos hx] at hpost
      rw [persist_of_patch _ _ _ _ _ _ _ _ _ hpost, if_pos hx, if_pos hx]
      exact ⟨⟨_, _, rfl, rfl⟩, by simp [usersPatch, usersGet, applyPatch], rfl⟩
    · rw [if_neg hx] at hpost
      rw [persist_of_nothing _ _ _ _ _ _ _ _ hpost, if_neg hx, if_neg hx]
      exact ⟨⟨_, _, rfl, rfl⟩, rfl, rfl⟩

/-- The replacement of line 163 removes the first `#`, as `List.erase` does. -/
theorem replaceFirst_eq_erase (c : Char) (s : Str) : replaceFirst c s = s.erase c := by
  induction s with
  | nil => rfl
  | cons d ds ih =>
    rw [List.erase_cons]
    unfold replaceFirst
    by_cases h : (d == c) = true
    · rw [if_pos h, if_pos h]
    · rw [if_neg h, if_neg h, ih]

theorem isLowerHex_iff (ch : Char) : isLowerHex ch = true ↔ ch ∈ hexDigits := by
  constructor
  · intro h
    have hc : Char.ofNat ch.toNat = ch := Char.ofNat_toNat ch
    simp only [isLowerHex, isDigit, Bool.or_eq_true, Bool.and_eq_true, decide_eq_true_eq] at h
    rcases h with ⟨h1, h2⟩ | ⟨h1, h2⟩
    · interval_cases hn : ch.toNat <;> rw [← hc] <;> decide
    · interval_cases hn : ch.toNat <;> rw [← hc] <;> decide
  · intro h
    simp only [hexDigits, List.mem_cons, List.mem_singleton, List.not_mem_nil, or_false] at h
    rcases h with rfl | rfl | rfl | rfl | rfl | rfl | rfl | rfl | rfl | rfl | rfl | rfl | rfl |
      rfl | rfl | rfl <;> decide

/-- The pattern of line 169 accepts the strings of exactly three or exactly six
hexadecimal digits. -/
theorem isHexColor_iff (s : Str) :
    isHexColor s = true ↔ (s.length = 3 ∨ s.length = 6) ∧ ∀ ch ∈ s, ch ∈ hexDigits := by
  simp only [isHexColor, Bool.and_eq_true, Bool.or_eq_true, beq_iff_eq, List.all_eq_true,
    isLowerHex_iff]

/-- C7. When the first token is `!team-color` or `!team-colour` and a token `t`
follows, let `c` be `t` lower-cased, trimmed and with its first `#` erased.
If `c` is `clear` or `remove`, `team_color` becomes absent; otherwise, if `c`
consists of exactly three or exactly six hexadecimal digits, `team_color`
becomes `c`; in every other case `team_color` keeps its prior value and no
patch is sent. Each case holds of the profile returned and of the profile
stored, and fixes the patch sent. -/
theorem team_color_rule (deps : Deps) (st : Store) (now : Nat) (m : ChatMessage)
    (cmd t c : Str) (rest : List Str)
    (hcmd : cmd = "!team-color".toList ∨ cmd = "!team-colour".toList)
    (hs : split ' ' m.message = cmd :: t :: rest)
    (hc : c = (trim (deps.toLowerCase t)).erase '#') :
    ((c = "clear".toList ∨ c = "remove".toList) →
      (∃ created user, (create deps st now m).completion = .returned created user ∧
        user.team_color = none) ∧
      ((create deps st now m).store.users m.username).team_color = none ∧
      (create deps st now m).patches = [(m.username, .team_color none)]) ∧
    (¬ (c = "clear".toList ∨ c = "remove".toList) →
      ((c.length = 3 ∨ c.length = 6) ∧ ∀ ch ∈ c, ch ∈ hexDigits) →
      (∃ created user, (create deps st now m).completion = .returned created user ∧
        user.team_color = some c) ∧
      ((create deps st now m).store.users m.username).team_color = some c ∧
      (create deps st now m).patches = [(m.username, .team_color (some c))]) ∧
    (¬ (c = "clear".toList ∨ c = "remove".toList) →
      ¬ ((c.length = 3 ∨ c.length = 6) ∧ ∀ ch ∈ c, ch ∈ hexDigits) →
      (∃ created user, (create deps st now m).completion = .returned created user ∧
        user.team_color = (st.users m.username).team_color) ∧
      ((create deps st now m).store.users m.username).team_color =
        (st.users m.username).team_color ∧
      (create deps st now m).patches = []) := by
  have hcol : colorOf deps t = c := by
    rw [hc, colorOf, replaceFirst_eq_erase]
  obtain ⟨h1, h2, h3⟩ := create_of_team_color deps st now m cmd t rest hcmd hs
  unfold teamColorAfter at h1 h2
  rw [hcol] at h1 h2 h3
  refine ⟨?_, ?_, ?_⟩
  · intro hclear
    rw [if_pos hclear] at h1 h2 h3
    exact ⟨h1, h2, h3⟩
  · intro hclear hhex
    have hx : isHexColor c = true := (isHexColor_iff c).mpr hhex
    rw [if_neg hclear, if_pos hx] at h1 h2 h3
    exact ⟨h1, h2, h3⟩
  · intro hclear hhex
    have hx : ¬ isHexColor c = true := fun h => hhex ((isHexColor_iff c).mp h)
    rw [if_neg hclear, if_neg hx] at h1 h2 h3
    exact ⟨h1, h2, h3⟩

/-- On a profile whose colour is `00ff9a`: `#1A2b3C` followed by a tab sets
`1a2b3c`, `ab#c` sets `abc`, `CLEAR` clears, and `zzzzzz` (the example of the
specification) and `##abc` leave the colour as it was. -/
theorem team_color_rule_witness :
    ((create asciiDeps storeWithColor 100 (aliceSays "m1" "!team-color #1A2b3C\t")).store.users
      "alice".toList).team_color = some "1a2b3c".toList ∧
    ((create asciiDeps storeWithColor 100 (aliceSays "m1" "!team-colour ab#c")).store.users
      "alice".toList).team_color = some "abc".toList ∧
    ((create asciiDeps storeWithColor 100 (aliceSays "m1" "!team-color CLEAR")).store.users
      "alice".toList).team_color = none ∧
    ((create asciiDeps storeWithColor 100 (aliceSays "m1" "!team-color zzzzzz")).store.users
      "alice".toList).team_color = some "00ff9a".toList ∧
    ((create asciiDeps storeWithColor 100 (aliceSays "m1" "!team-color ##abc")).store.users
      "alice".toList).team_color = some "00ff9a".toList ∧
    (create asciiDeps storeWithColor 100 (aliceSays "m1" "!team-color ##abc")).patches = [] :=
  ⟨((team_color_rule asciiDeps storeWithColor 100 (aliceSays "m1" "!team-color #1A2b3C\t")
      "!team-color".toList "#1A2b3C\t".toList "1a2b3c".toList [] (Or.inl rfl) (by decide)
      (by decide)).2.1 (by decide) (by decide)).2.1,
    ((team_color_rule asciiDeps storeWithColor 100 (aliceSays "m1" "!team-colour ab#c")
      "!team-colour".toList "ab#c".toList "abc".toList [] (Or.inr rfl) (by decide)
      (by decide)).2.1 (by decide) (by decide)).2.1,
    ((team_color_rule asciiDeps storeWithColor 100 (aliceSays "m1" "!team-color CLEAR")
      "!team-color".toList "CLEAR".toList "clear".toList [] (Or.inl rfl) (by decide)
      (by decide)).1 (Or.inl rfl)).2.1,
    ((team_color_rule asciiDeps storeWithColor 100 (aliceSays "m1" "!team-color zzzzzz")
      "!team-color".toList "zzzzzz".toList "zzzzzz".toList [] (Or.inl rfl) (by decide)
      (by decide)).2.2 (by decide) (by decide)).2.1,
    ((team_color_rule asciiDeps storeWithColor 100 (aliceSays "m1" "!team-color ##abc")
      "!team-color".toList "##abc".toList "#abc".toList [] (Or.inl rfl) (by decide)
      (by decide)).2.2 (by decide) (by decide)).2.1,
    ((team_color_rule asciiDeps storeWithColor 100 (aliceSays "m1" "!team-color ##abc")
      "!team-color".toList "##abc".toList "#abc".toList [] (Or.inl rfl) (by decide)
      (by decide)).2.2 (by decide) (by decide)).2.2⟩

/-! ## C8: the status text -/

theorem setstatus_text (t : Str) :
    matchArchive ("!setstatus ".toList ++ t) = none ∧
      isSubmission ("!setstatus ".toList ++ t) = false ∧
      isHere ("!setstatus ".toList ++ t) = false ∧
      isSetStatus ("!setstatus ".toList ++ t) = true :=
  ⟨rfl, rfl, rfl, rfl⟩

theorem split_setstatus (t : Str) :
    split ' ' ("!setstatus ".toList ++ t) = "!setstatus".toList :: split ' ' t :=
  split_append_sep ' ' "!setstatus".toList t (by decide)

/-- C8. For a message without `parsedMessage` whose text is `!setstatus `
followed by any string `t`, `create` sets the author's status to exactly `t`
(in the profile returned, in the profile stored and in the patch sent); for
the empty `t` the status is the empty string, not absent. -/
theorem setstatus_sets_rest (deps : Deps) (st : Store) (now : Nat) (m : ChatMessage) (t : Str)
    (hp : m.parsedMessage = none) (hm : m.message = "!setstatus ".toList ++ t) :
    (∃ created user, (create deps st now m).completion = .returned created user ∧
      user.status = some t) ∧
    ((create deps st now m).store.users m.username).status = some t ∧
    (create deps st now m).patches = [(m.username, .status (some t))] := by
  obtain ⟨ha, hsub, h1, h2⟩ := setstatus_text t
  rw [← hm] at ha hsub h1 h2
  have hpost : postUpsert deps now m = .patch (.status (some t)) := by
    unfold postUpsert
    rw [if_neg (by simp [h1]), if_pos h2]
    simp only [parsedOrMessage, hp, hm, split_setstatus, join_split]
  rw [create_of_other deps st now m ha hsub, persist_of_patch _ _ _ _ _ _ _ _ _ hpost]
  exact ⟨⟨_, _, rfl, rfl⟩, by simp [usersPatch, usersGet, applyPatch], rfl⟩

/-- A status with runs of spaces is kept as typed, and an empty one is the
empty string. -/
theorem setstatus_sets_rest_witness :
    ((create asciiDeps emptyStore 100 (aliceSays "m1" "!setstatus  be  right back ")).store.users
      "alice".toList).status = some " be  right back ".toList ∧
    ((create asciiDeps emptyStore 100 (aliceSays "m1" "!setstatus ")).store.users
      "alice".toList).status = some [] :=
  ⟨(setstatus_sets_rest asciiDeps emptyStore 100 (aliceSays "m1" "!setstatus  be  right back ")
      " be  right back ".toList rfl rfl).2.1,
    (setstatus_sets_rest asciiDeps emptyStore 100 (aliceSays "m1" "!setstatus ")
      [] rfl rfl).2.1⟩

/-! ## C9: clearing the country -/

theorem profileStep_country_clear (deps : Deps) (s : Str) (h : isCountryClear s) :
    profileStep deps s = .patch (.country none) := by
  have hc : deps.toLowerCase "clear".toList = "clear".toList :=
    (deps.toLowerCase_ascii _ (by decide)).trans (by decide)
  have hr : deps.toLowerCase "remove".toList = "remove".toList :=
    (deps.toLowerCase_ascii _ (by decide)).trans (by decide)
  rcases h with rfl | rfl | rfl | rfl
  · have hs : split ' ' "!country clear".toList = ["!country".toList, "clear".toList] := by decide
    unfold profileStep
    rw [hs]
    simp only []
    rw [if_pos (by decide), hc, if_pos (by decide)]
  · have hs : split ' ' "!country remove".toList = ["!country".toList, "remove".toList] := by
      decide
    unfold profileStep
    rw [hs]
    simp only []
    rw [if_pos (by decide), hr, if_pos (by decide)]
  · have hs : split ' ' "!flag clear".toList = ["!flag".toList, "clear".toList] := by decide
    unfold profileStep
    rw [hs]
    simp only []
    rw [if_pos (by decide), hc, if_pos (by decide)]
  · have hs : split ' ' "!flag remove".toList = ["!flag".toList, "remove".toList] := by decide
    unfold profileStep
    rw [hs]
    simp only []
    rw [if_pos (by decide), hr, if_pos (by decide)]

/-- What `create` does with a command that clears the country. -/
theorem create_of_country_clear (deps : Deps) (st : Store) (now : Nat) (m : ChatMessage)
    (h : isCountryClear m.message) :
    create deps st now m =
      { store := usersPatch
          { st with twitchCommands := (findOneAndUpdate st.twitchCommands m none).1 }
          m.username (.country none),
        removals := [], patches := [(m.username, .country none)],
        completion := .returned (findOneAndUpdate st.twitchCommands m none).2
          (applyPatch (.country none) (usersGet st m.username)) } := by
  have ht : matchArchive m.message = none ∧ isSubmission m.message = false ∧
      isHere m.message = false ∧ isSetStatus m.message = false ∧
      isClearStatus m.message = false ∧ isProfileCommand m.message = true := by
    rcases h with h | h | h | h <;> rw [h] <;> decide
  obtain ⟨ha, hsub, h1, h2, h3, h4⟩ := ht
  have hpost : postUpsert deps now m = .patch (.country none) := by
    simp [postUpsert, h1, h2, h3, h4, profileStep_country_clear deps m.message h]
  rw [create_of_other deps st now m ha hsub, persist_of_patch _ _ _ _ _ _ _ _ _ hpost]
  rfl

theorem createAll_append (deps : Deps) (msgs : List (Nat × ChatMessage)) (now : Nat)
    (m : ChatMessage) :
    ∀ st : Store, (createAll deps st (msgs ++ [(now, m)])).2 =
      (create deps (createAll deps st msgs).2 now m).store := by
  induction msgs with
  | nil => intro st; rfl
  | cons x rest ih =>
    intro st
    simp only [List.cons_append, createAll]
    exact ih _

/-- C9. Whatever the prior profile and the country table, `!country clear`
(or `!country remove`, `!flag clear`, `!flag remove`) leaves the author's
country absent, in the profile returned and in the profile stored; so any
sequence of dispatches that ends with such a command (as `!country clear`,
`!country fr`, `!country clear`) ends with the country absent, and a second
clear right after a clear leaves every stored profile as the first one left
it. -/
theorem country_clear_is_idempotent (deps : Deps) :
    (∀ (st : Store) (now : Nat) (m : ChatMessage), isCountryClear m.message →
      (∃ created user, (create deps st now m).completion = .returned created user ∧
        user.country = none) ∧
      ((create deps st now m).store.users m.username).country = none) ∧
    (∀ (st : Store) (msgs : List (Nat × ChatMessage)) (now : Nat) (m : ChatMessage),
      isCountryClear m.message →
      ((createAll deps st (msgs ++ [(now, m)])).2.users m.username).country = none) ∧
    (∀ (st : Store) (n1 n2 : Nat) (m1 m2 : ChatMessage), isCountryClear m1.message →
      isCountryClear m2.message → m1.username = m2.username →
      (create deps (create deps st n1 m1).store n2 m2).store.users =
        (create deps st n1 m1).store.users) := by
  have single : ∀ (st : Store) (now : Nat) (m : ChatMessage), isCountryClear m.message →
      ((create deps st now m).store.users m.username).country = none := by
    intro st now m h
    rw [create_of_country_clear deps st now m h]
    simp [usersPatch, applyPatch]
  refine ⟨?_, ?_, ?_⟩
  · intro st now m h
    refine ⟨?_, single st now m h⟩
    rw [create_of_country_clear deps st now m h]
    exact ⟨_, _, rfl, rfl⟩
  · intro st msgs now m h
    rw [createAll_append]
    exact single _ now m h
  · intro st n1 n2 m1 m2 h1 h2 hu
    rw [create_of_country_clear deps _ n2 m2 h2, create_of_country_clear deps st n1 m1 h1]
    funext n
    by_cases hn : n = m2.username <;> simp [usersPatch, applyPatch, hu, hn]

/-- The sequence of the specification: `!country clear`, `!country fr`,
`!country clear` ends with the country absent, although `fr` had set it; a
clear alone leaves it absent, and a second clear changes no profile. -/
theorem country_clear_is_idempotent_witness :
    ((createAll asciiDeps emptyStore
        [(1, aliceSays "a" "!country clear"), (2, aliceSays "b" "!country fr")]).2.users
      "alice".toList).country = some "France".toList ∧
    ((createAll asciiDeps emptyStore
        ([(1, aliceSays "a" "!country clear"), (2, aliceSays "b" "!country fr")] ++
          [(3, aliceSays "c" "!country clear")])).2.users "alice".toList).country = none ∧
    ((create asciiDeps storeWithColor 1 (aliceSays "a" "!flag remove")).store.users
      "alice".toList).country = none ∧
    (create asciiDeps (create asciiDeps emptyStore 1 (aliceSays "a" "!country clear")).store 2
        (aliceSays "b" "!flag clear")).store.users =
      (create asciiDeps emptyStore 1 (aliceSays "a" "!country clear")).store.users :=
  ⟨by decide,
    (country_clear_is_idempotent asciiDeps).2.1 emptyStore
      [(1, aliceSays "a" "!country clear"), (2, aliceSays "b" "!country fr")] 3
      (aliceSays "c" "!country clear") (Or.inl rfl),
    ((country_clear_is_idempotent asciiDeps).1 storeWithColor 1 (aliceSays "a" "!flag remove")
      (Or.inr (Or.inr (Or.inr rfl)))).2,
    (country_clear_is_idempotent asciiDeps).2.2 emptyStore 1 2 (aliceSays "a" "!country clear")
      (aliceSays "b" "!flag clear") (Or.inl rfl) (Or.inr (Or.inr (Or.inl rfl))) rfl⟩

/-! ## C10: text that is no command -/

theorem startsWith_cons_of_ne (a c : Char) (p cs : Str) (h : c ≠ a) :
    startsWith (a :: p) (c :: cs) = false := by
  simp [startsWith, Ne.symm h]

theorem isRecognized_of_no_bang (s : Str) (h : s.head? ≠ some '!') : isRecognized s = false := by
  cases s with
  | nil => decide
  | cons c cs =>
    have hc : c ≠ '!' := fun hc => h (by simp [hc])
    have hd : dropStart "!archive".toList (c :: cs) = none := by
      show (if ('!' == c) = true then dropStart "archive".toList cs else none) = none
      rw [if_neg (by simpa using Ne.symm hc)]
    have hh : isHere (c :: cs) = false := by
      show (c == '!' && cs == "here".toList) = false
      simp [hc]
    have hst : ∀ p : Str, startsWith ('!' :: p) (c :: cs) = false :=
      fun p => startsWith_cons_of_ne '!' c p cs hc
    have ha : matchArchive (c :: cs) = none := by
      unfold matchArchive
      rw [hd]
    have h1 : isSubmission (c :: cs) = false := by
      show (startsWith ('!' :: "ask".toList) (c :: cs) ||
        startsWith ('!' :: "idea".toList) (c :: cs) ||
        startsWith ('!' :: "submit".toList) (c :: cs)) = false
      simp [hst]
    have h2 : isSetStatus (c :: cs) = false := hst "setstatus ".toList
    have h3 : isClearStatus (c :: cs) = false := hst "clearstatus".toList
    have h4 : isProfileCommand (c :: cs) = false := by
      show (startsWith ('!' :: "country".toList) (c :: cs) ||
        startsWith ('!' :: "flag".toList) (c :: cs) ||
        startsWith ('!' :: "team".toList) (c :: cs) ||
        startsWith ('!' :: "team-color".toList) (c :: cs) ||
        startsWith ('!' :: "team-colour".toList) (c :: cs) ||
        startsWith ('!' :: "pronoun".toList) (c :: cs)) = false
      simp [hst]
    simp [isRecognized, ha, h1, hh, h2, h3, h4]

/-- C10, as the claim states it, fails: on a store whose record `q5` has the
number 5, the plain text `hello` dispatched under the id `q5` is stored with
`num` 5, not without a `num`. -/
theorem plain_text_keeps_prior_num :
    isRecognized "hello".toList = false ∧
    (create asciiDeps storeWithQuestion5 100 (aliceSays "q5" "hello")).completion.num = some 5 ∧
    (create asciiDeps storeWithQuestion5 100 (aliceSays "q5" "hello")).store.twitchCommands.map
      (fun r => (r.id, r.message, r.num)) = [("q5".toList, "hello".toList, some 5)] := by
  decide

/-- C10, amended. When the text matches none of the patterns of `create` (as
every text that does not begin with `!`), the call sends no patch, asks for no
removal and leaves the counter and the profiles as they were: all it does to
the state is the upsert of the message, whose `$set` carries no `num`, so that
the record is stored without a `num` when its id is new, and keeps the `num`
the record of that id had before otherwise; the record is returned with the
author's profile. -/
theorem unrecognized_only_upserts :
    (∀ s : Str, s.head? ≠ some '!' → isRecognized s = false) ∧
    (∀ (deps : Deps) (st : Store) (now : Nat) (m : ChatMessage),
      isRecognized m.message = false →
      create deps st now m =
        { store := { st with twitchCommands := (findOneAndUpdate st.twitchCommands m none).1 },
          removals := [], patches := [],
          completion := .returned (findOneAndUpdate st.twitchCommands m none).2
            (usersGet st m.username) } ∧
      (findOneAndUpdate st.twitchCommands m none).2.num =
        (st.twitchCommands.find? (fun r => r.id = m.id)).bind (fun r => r.num) ∧
      (st.twitchCommands.find? (fun r => r.id = m.id) = none →
        (findOneAndUpdate st.twitchCommands m none).2.num = none)) := by
  refine ⟨isRecognized_of_no_bang, ?_⟩
  intro deps st now m h
  simp only [isRecognized, Bool.or_eq_false_iff] at h
  obtain ⟨⟨⟨⟨⟨ha0, hs⟩, h1⟩, h2⟩, h3⟩, h4⟩ := h
  have ha : matchArchive m.message = none := by
    cases hma : matchArchive m.message with
    | none => rfl
    | some d => simp [hma] at ha0
  have hpost : postUpsert deps now m = .nothing := by
    simp [postUpsert, h1, h2, h3, h4]
  have hn := upsertIn_snd_num st.twitchCommands m none st.twitchCommands
  refine ⟨?_, hn, ?_⟩
  · rw [create_of_other deps st now m ha hs, persist_of_nothing _ _ _ _ _ _ _ _ hpost]
  · intro hf
    rw [findOneAndUpdate, hn, hf]
    rfl

/-- A plain chat line on a store whose counter stands at 5. -/
theorem unrecognized_only_upserts_witness :
    (create asciiDeps storeWithQuestion5 100 (aliceSays "m1" "hello there")).patches = [] ∧
    (create asciiDeps storeWithQuestion5 100 (aliceSays "m1" "hello there")).removals = [] ∧
    (create asciiDeps storeWithQuestion5 100 (aliceSays "m1" "hello there")).store.counter =
      some 5 := by
  have h := (unrecognized_only_upserts.2 asciiDeps storeWithQuestion5 100
    (aliceSays "m1" "hello there") (unrecognized_only_upserts.1 _ (by decide))).1
  rw [h]
  exact ⟨rfl, rfl, rfl⟩

/-! ## C11: dispatching the same message twice -/

theorem countId_cons (r : CommandRecord) (cs : List CommandRecord) (id : Str) :
    countId (r :: cs) id = (if r.id = id then 1 else 0) + countId cs id := by
  by_cases h : r.id = id <;> simp [countId, List.filter_cons, h, Nat.add_comm]

/-- After the upsert one record more has the message's id when none had it,
and as many as before otherwise. -/
theorem countId_upsertIn (all : List CommandRecord) (m : ChatMessage) (num : Option Nat)
    (cs : List CommandRecord) :
    countId (upsertIn all m num cs).1 m.id =
      if countId cs m.id = 0 then 1 else countId cs m.id := by
  induction cs with
  | nil => simp [upsertIn, countId, newRecord]
  | cons r rest ih =>
    unfold upsertIn
    split
    · rename_i h
      have h1 : (setMessage r m num).id = m.id := rfl
      rw [countId_cons, countId_cons, if_pos h1, if_pos h]
      simp
    · rename_i h
      show countId (r :: (upsertIn all m num rest).1) m.id = _
      rw [countId_cons, countId_cons, if_neg h, ih]
      simp

theorem length_upsertIn (all : List CommandRecord) (m : ChatMessage) (num : Option Nat)
    (cs : List CommandRecord) :
    (upsertIn all m num cs).1.length =
      if countId cs m.id = 0 then cs.length + 1 else cs.length := by
  induction cs with
  | nil => simp [upsertIn, countId]
  | cons r rest ih =>
    unfold upsertIn
    split
    · rename_i h
      rw [countId_cons, if_pos h]
      simp
    · rename_i h
      show (r :: (upsertIn all m num rest).1).length = _
      rw [countId_cons, if_neg h, List.length_cons, ih]
      by_cases h0 : countId rest m.id = 0 <;> simp [h0]

/-- Whether `create` reaches the upsert does not depend on the clock: either
every call on this state with this message leaves the state as it was, or
every call makes the upsert. -/
theorem create_store_cases (deps : Deps) (st : Store) (m : ChatMessage) :
    (∀ now, (create deps st now m).store = st) ∨
    (∀ now, ∃ num, (create deps st now m).store.twitchCommands =
      (findOneAndUpdate st.twitchCommands m num).1) := by
  cases ha : matchArchive m.message with
  | some digits =>
    cases hb : isModOrOwner m (findOneByNum st.twitchCommands (toNumber digits)) with
    | none =>
      refine Or.inl (fun now => ?_)
      unfold create
      simp only [ha, hb]
    | some b =>
      refine Or.inr (fun now => ⟨none, ?_⟩)
      rw [create_of_archive deps st now m digits b ha hb, persist_twitchCommands]
  | none =>
    cases hs : isSubmission m.message with
    | true =>
      by_cases hb : trim (join ' ' (split ' ' m.message).tail) = []
      · refine Or.inl (fun now => ?_)
        unfold create
        simp only [ha, hs, hb, if_true]
      · refine Or.inr (fun now => ⟨some (st.counter.getD 0 + 1), ?_⟩)
        rw [create_of_submission deps st now m hs hb]
    | false =>
      refine Or.inr (fun now => ⟨none, ?_⟩)
      rw [create_of_other deps st now m ha hs, persist_twitchCommands]

/-- A call of `create` on a state that holds a record with the message's id
keeps the number of records and the number of records with that id. -/
theorem create_keeps_count (deps : Deps) (st : Store) (now : Nat) (m : ChatMessage)
    (h : countId st.twitchCommands m.id ≠ 0) :
    (create deps st now m).store.twitchCommands.length = st.twitchCommands.length ∧
    countId (create deps st now m).store.twitchCommands m.id = countId st.twitchCommands m.id := by
  rcases create_store_cases deps st m with hc | hc
  · rw [hc now]
    exact ⟨rfl, rfl⟩
  · obtain ⟨num, hn⟩ := hc now
    rw [hn, findOneAndUpdate, length_upsertIn, countId_upsertIn, if_neg h, if_neg h]
    exact ⟨rfl, rfl⟩

/-- A message that is not a blank submission, and whose archive request does
not throw, reaches the upsert. -/
theorem create_reaches_upsert (deps : Deps) (st : Store) (now : Nat) (m : ChatMessage)
    (hsub : isSubmission m.message = true → trim (join ' ' (split ' ' m.message).tail) ≠ [])
    (harch : ∀ digits, matchArchive m.message = some digits →
      findOneByNum st.twitchCommands (toNumber digits) = none →
      m.badges.moderator = true ∨ m.badges.broadcaster = true) :
    ∃ num, (create deps st now m).store.twitchCommands =
      (findOneAndUpdate st.twitchCommands m num).1 := by
  cases ha : matchArchive m.message with
  | some digits =>
    obtain ⟨b, hb⟩ := isModOrOwner_isSome m _ (harch digits ha)
    exact ⟨none, by rw [create_of_archive deps st now m digits b ha hb, persist_twitchCommands]⟩
  | none =>
    cases hs : isSubmission m.message with
    | true => exact ⟨_, by rw [create_of_submission deps st now m hs (hsub hs)]⟩
    | false => exact ⟨none, by rw [create_of_other deps st now m ha hs, persist_twitchCommands]⟩

/-- The second of two dispatches of one message adds no record. -/
theorem second_create_keeps_count (deps : Deps) (st : Store) (n1 n2 : Nat) (m : ChatMessage) :
    (create deps (create deps st n1 m).store n2 m).store.twitchCommands.length =
      (create deps st n1 m).store.twitchCommands.length ∧
    countId (create deps (create deps st n1 m).store n2 m).store.twitchCommands m.id =
      countId (create deps st n1 m).store.twitchCommands m.id := by
  rcases create_store_cases deps st m with hc | hc
  · rw [hc n1, hc n2]
    exact ⟨rfl, rfl⟩
  · obtain ⟨num, hn⟩ := hc n1
    refine create_keeps_count deps _ n2 m ?_
    rw [hn, findOneAndUpdate, countId_upsertIn]
    split <;> simp_all

/-- C11, as the claim states it, fails: after `!ask` with an empty body is
dispatched twice, no record with the message's id is stored. -/
theorem blank_submission_twice_stores_none :
    countId (create asciiDeps (create asciiDeps emptyStore 100 (aliceSays "m1" "!ask")).store 200
      (aliceSays "m1" "!ask")).store.twitchCommands "m1".toList = 0 := by
  decide

/-- C11, amended. For every message and every state, the second of two
dispatches of the message adds no record: the collection and the records with
the message's id are as many after it as after the first dispatch. When the
message is not a submission with a blank body (which is never stored; an
archive request for a question that does not exist being taken from a
requester with a badge) and at most one record had its id at the start,
exactly one stored record has that id after the two dispatches. -/
theorem same_message_twice_one_record (deps : Deps) (st : Store) (n1 n2 : Nat)
    (m : ChatMessage) :
    (create deps (create deps st n1 m).store n2 m).store.twitchCommands.length =
      (create deps st n1 m).store.twitchCommands.length ∧
    countId (create deps (create deps st n1 m).store n2 m).store.twitchCommands m.id =
      countId (create deps st n1 m).store.twitchCommands m.id ∧
    ((isSubmission m.message = true → trim (join ' ' (split ' ' m.message).tail) ≠ []) →
      (∀ digits, matchArchive m.message = some digits →
        findOneByNum st.twitchCommands (toNumber digits) = none →
        m.badges.moderator = true ∨ m.badges.broadcaster = true) →
      countId st.twitchCommands m.id ≤ 1 →
      countId (create deps (create deps st n1 m).store n2 m).store.twitchCommands m.id = 1) := by
  obtain ⟨h1, h2⟩ := second_create_keeps_count deps st n1 n2 m
  refine ⟨h1, h2, ?_⟩
  intro hsub harch hle
  obtain ⟨num, hn⟩ := create_reaches_upsert deps st n1 m hsub harch
  rw [h2, hn, findOneAndUpdate, countId_upsertIn]
  split
  · rfl
  · omega

/-- A line of chat dispatched twice on the empty store is stored once. -/
theorem same_message_twice_one_record_witness :
    countId (create asciiDeps (create asciiDeps emptyStore 100 (aliceSays "m1" "hello")).store 200
      (aliceSays "m1" "hello")).store.twitchCommands "m1".toList = 1 :=
  (same_message_twice_one_record asciiDeps emptyStore 100 200 (aliceSays "m1" "hello")).2.2
    (by decide) (by decide) (by decide)

/-! ## C12: a command without its argument -/

/-- What `create` does with a submission whose body is blank. -/
theorem create_of_blank_submission (deps : Deps) (st : Store) (now : Nat) (m : ChatMessage)
    (hs : isSubmission m.message = true)
    (hb : trim (join ' ' (split ' ' m.message).tail) = []) :
    create deps st now m =
      { store := st, removals := [], patches := [], completion := .undefined } := by
  have ha := (submission_excludes m.message hs).1
  unfold create
  simp only [ha, hs, hb, if_true]

/-- With an empty token after the command, and tables without an entry under
the empty string, the profile branch does nothing. -/
theorem profileStep_of_empty_token (deps : Deps) (text tok : Str) (rest : List Str)
    (ht : tablesIgnoreEmpty deps) (hs : split ' ' text = tok :: [] :: rest) :
    profileStep deps text = .nothing := by
  obtain ⟨hc, hfa, hsi, hpc⟩ := ht
  have hlow : deps.toLowerCase [] = [] := deps.toLowerCase_ascii [] (by simp)
  have htrim : trim [] = [] := rfl
  have hrep : replaceFirst '#' [] = [] := rfl
  have hne : ¬ (([] : Str) = "clear".toList ∨ ([] : Str) = "remove".toList) := by decide
  have hhex : isHexColor [] = false := rfl
  unfold profileStep
  rw [hs]
  simp only [hlow, htrim, hrep, if_neg hne, hc, hfa, hsi, hpc, hhex, Bool.or_self,
    Bool.false_eq_true, if_false]
  split_ifs <;> rfl

/-- What `create` does with a `country`, `flag`, `team`, `team-color`,
`team-colour` or `pronoun` command followed by an empty token. -/
theorem create_of_empty_token (deps : Deps) (st : Store) (now : Nat) (m : ChatMessage)
    (tok : Str) (rest : List Str) (ht : tablesIgnoreEmpty deps)
    (hp : isProfileCommand m.message = true) (hs : split ' ' m.message = tok :: [] :: rest) :
    create deps st now m =
      { store := { st with twitchCommands := (findOneAndUpdate st.twitchCommands m none).1 },
        removals := [], patches := [],
        completion := .returned (findOneAndUpdate st.twitchCommands m none).2
          (usersGet st m.username) } := by
  obtain ⟨ha, hsub, h1, h2, h3⟩ := profileCommand_excludes m.message hp
  have hpost : postUpsert deps now m = .nothing := by
    simp [postUpsert, h1, h2, h3, hp, profileStep_of_empty_token deps m.message tok rest ht hs]
  rw [create_of_other deps st now m ha hsub, persist_of_nothing _ _ _ _ _ _ _ _ hpost]

/-- C12. When the text is one of the command tokens `!country`, `!flag`,
`!team`, `!team-color`, `!team-colour`, `!pronoun`, `!ask`, `!idea`, `!submit`,
alone or followed by one space, no tokenization step throws: the call ends
normally (it returns the record or `undefined`), sends no patch and leaves
every profile as it was. For the token followed by a space, where the lookup
key is the empty string, the reference tables are taken to have no entry under
the empty string. -/
theorem missing_argument_is_no_op (deps : Deps) (st : Store) (now : Nat) (m : ChatMessage)
    (cmd : Str) (hcmd : cmd ∈ argumentCommands)
    (hm : m.message = cmd ∨ (m.message = cmd ++ [' '] ∧ tablesIgnoreEmpty deps)) :
    (create deps st now m).completion ≠ .typeError ∧ (create deps st now m).patches = [] ∧
    (create deps st now m).store.users = st.users := by
  simp only [argumentCommands, List.mem_cons, List.mem_singleton, List.not_mem_nil,
    or_false] at hcmd
  rcases hcmd with rfl | rfl | rfl | rfl | rfl | rfl | rfl | rfl | rfl <;>
    rcases hm with hm | ⟨hm, ht⟩ <;>
    first
    | (rw [create_of_blank_submission deps st now m (by rw [hm]; decide) (by rw [hm]; decide)]
       exact ⟨by simp, rfl, rfl⟩)
    | (rw [profile_command_without_token deps st now m (by rw [hm]; decide)
        (by rw [hm]; decide)]
       exact ⟨by simp, rfl, rfl⟩)
    | (rw [create_of_empty_token deps st now m _ [] ht (by rw [hm]; decide)
        (by rw [hm]; exact split_append_sep ' ' _ [] (by decide))]
       exact ⟨by simp, rfl, rfl⟩)

/-- The commands `!pronoun` and `!team-color` followed by a space send no
patch. -/
theorem missing_argument_is_no_op_witness :
    (create asciiDeps emptyStore 100 (aliceSays "m1" "!pronoun")).patches = [] ∧
    (create asciiDeps emptyStore 100 (aliceSays "m1" "!team-color ")).patches = [] ∧
    (create asciiDeps emptyStore 100 (aliceSays "m1" "!team-color ")).completion ≠ .typeError :=
  have h1 := missing_argument_is_no_op asciiDeps emptyStore 100 (aliceSays "m1" "!pronoun")
    "!pronoun".toList (by decide) (Or.inl rfl)
  have h2 := missing_argument_is_no_op asciiDeps emptyStore 100 (aliceSays "m1" "!team-color ")
    "!team-color".toList (by decide)
    (Or.inr ⟨rfl, by decide, by decide, by decide, by decide⟩)
  ⟨h1.2.1, h2.2.1, h2.1⟩

/-! ## C13: `find` without query options -/

theorem mem_insertNewestFirst (r x : CommandRecord) (l : List CommandRecord) :
    x ∈ insertNewestFirst r l ↔ x = r ∨ x ∈ l := by
  induction l with
  | nil => simp [insertNewestFirst]
  | cons y ys ih =>
    unfold insertNewestFirst
    split
    · simp
    · simp only [List.mem_cons, ih]
      constructor
      · rintro (h | h | h)
        · exact Or.inr (Or.inl h)
        · exact Or.inl h
        · exact Or.inr (Or.inr h)
      · rintro (h | h | h)
        · exact Or.inr (Or.inl h)
        · exact Or.inl h
        · exact Or.inr (Or.inr h)

theorem mem_sortNewestFirst (x : CommandRecord) (l : List CommandRecord) :
    x ∈ sortNewestFirst l ↔ x ∈ l := by
  induction l with
  | nil => simp [sortNewestFirst]
  | cons y ys ih => simp [sortNewestFirst, mem_insertNewestFirst, ih]

theorem length_insertNewestFirst (r : CommandRecord) (l : List CommandRecord) :
    (insertNewestFirst r l).length = l.length + 1 := by
  induction l with
  | nil => rfl
  | cons y ys ih =>
    unfold insertNewestFirst
    split
    · rfl
    · simp [ih]

theorem length_sortNewestFirst (l : List CommandRecord) :
    (sortNewestFirst l).length = l.length := by
  induction l with
  | nil => rfl
  | cons y ys ih => simp [sortNewestFirst, length_insertNewestFirst, ih]

theorem pairwise_insertNewestFirst (r : CommandRecord) (l : List CommandRecord)
    (h : l.Pairwise (fun a b => newerOrEqual a b = true)) :
    (insertNewestFirst r l).Pairwise (fun a b => newerOrEqual a b = true) := by
  induction l with
  | nil => simp [insertNewestFirst]
  | cons y ys ih =>
    rw [List.pairwise_cons] at h
    unfold insertNewestFirst
    split
    · rename_i hry
      rw [List.pairwise_cons]
      refine ⟨?_, List.pairwise_cons.mpr h⟩
      intro b hb
      rcases List.mem_cons.mp hb with rfl | hb
      · exact hry
      · have hyb := h.1 b hb
        simp only [newerOrEqual, decide_eq_true_eq] at hry hyb ⊢
        omega
    · rename_i hry
      rw [List.pairwise_cons]
      refine ⟨?_, ih h.2⟩
      intro b hb
      rcases (mem_insertNewestFirst r b ys).mp hb with rfl | hb
      · simp only [newerOrEqual, decide_eq_true_eq] at hry ⊢
        omega
      · exact h.1 b hb

theorem pairwise_sortNewestFirst (l : List CommandRecord) :
    (sortNewestFirst l).Pairwise (fun a b => newerOrEqual a b = true) := by
  induction l with
  | nil => simp [sortNewestFirst]
  | cons y ys ih => exact pairwise_insertNewestFirst y _ ih

/-- Every record `find` returns is stored, is not soft-deleted, is not
acknowledged and meets the conditions of the query. -/
theorem mem_find (st : Store) (now : Nat) (params : Params) (r : CommandRecord)
    (h : r ∈ find st now params) :
    r ∈ st.twitchCommands ∧ matchesQuery (buildQuery now params) r = true := by
  have h1 := List.mem_of_mem_take h
  rw [mem_sortNewestFirst, List.mem_filter] at h1
  exact h1

/-- The query built without options. -/
theorem matchesQuery_noOptions (now : Nat) (r : CommandRecord) :
    matchesQuery (buildQuery now noOptions) r = true ↔
      r.deleted_at = none ∧ (∃ t, r.created_at = some t ∧ now - sixHours ≤ t) ∧
        r.ack ≠ some true := by
  rcases hd : r.deleted_at with _ | d <;> rcases hc : r.created_at with _ | t <;>
    rcases ha : r.ack with _ | _ | _ <;>
    simp [matchesQuery, buildQuery, noOptions, withinSixHours, truthy, hd, hc, ha]

/-- C13. Called without query options (no `query`, or an empty one), `find`
returns only stored records whose `deleted_at` is absent, whose `created_at`
is not more than six hours before the clock reading and whose `ack` is not
`true`; the result is in order of `created_at`, newest first, and has at most
1000 entries; when no more than 1000 records meet the three conditions, all
of them are returned. -/
theorem find_without_options (st : Store) (now : Nat) :
    find st now emptyQuery = find st now noOptions ∧
    (∀ r ∈ find st now noOptions, r ∈ st.twitchCommands ∧ r.deleted_at = none ∧
      (∃ t, r.created_at = some t ∧ now - sixHours ≤ t) ∧ r.ack ≠ some true) ∧
    (find st now noOptions).Pairwise
      (fun a b => ∀ ta tb, a.created_at = some ta → b.created_at = some tb → tb ≤ ta) ∧
    (find st now noOptions).length ≤ 1000 ∧
    ((st.twitchCommands.filter (matchesQuery (buildQuery now noOptions))).length ≤ 1000 →
      ∀ r ∈ st.twitchCommands, r.deleted_at = none →
        (∃ t, r.created_at = some t ∧ now - sixHours ≤ t) → r.ack ≠ some true →
        r ∈ find st now noOptions) := by
  refine ⟨rfl, ?_, ?_, ?_, ?_⟩
  · intro r hr
    obtain ⟨h1, h2⟩ := mem_find st now noOptions r hr
    exact ⟨h1, (matchesQuery_noOptions now r).mp h2⟩
  · have hs := pairwise_sortNewestFirst
      (st.twitchCommands.filter (matchesQuery (buildQuery now noOptions)))
    have ht := List.Pairwise.sublist (List.take_sublist 1000 _) hs
    refine List.Pairwise.imp ?_ ht
    intro a b hab ta tb ha hb
    simp only [newerOrEqual, createdRank, ha, hb, decide_eq_true_eq] at hab
    omega
  · exact List.length_take_le 1000 _
  · intro hlen r hr hd hc ha
    unfold find
    rw [List.take_of_length_le (by rw [length_sortNewestFirst]; exact hlen),
      mem_sortNewestFirst, List.mem_filter]
    exact ⟨hr, (matchesQuery_noOptions now r).mpr ⟨hd, hc, ha⟩⟩

/-- Two and a half seconds past six hours, the two lines of chat created at
one and two seconds are no longer returned, and the other two come newest
first. -/
theorem find_without_options_witness :
    find chatStore (sixHours + 2500) noOptions =
      [chatLine 4 "c4" "¿que?" 4000, chatLine 3 "c3" "!ask x" 3000] ∧
    (chatLine 1 "c1" "hello @bob" 1000 ∈ find chatStore 5000 noOptions) :=
  ⟨by decide,
    (find_without_options chatStore 5000).2.2.2.2 (by decide) _ (by decide) rfl
      ⟨1000, rfl, by decide⟩ (by decide)⟩

/-! ## C14: `find` with `commands` set to false -/

/-- C14. With the option `commands` set to `false` (the Boolean or the string),
`find` returns, of the four live lines of chat `hello @bob`, `@bob hello`,
`!ask x` and `¿que?`, only `hello @bob`: the plain lines `@bob hello` and
`¿que?` do not begin with a word character and are left out with the
command. -/
theorem plain_chat_needs_word_character :
    find chatStore 5000 (commandsOption (.bool false)) =
      [chatLine 1 "c1" "hello @bob" 1000] ∧
    find chatStore 5000 (commandsOption (.str "false".toList)) =
      [chatLine 1 "c1" "hello @bob" 1000] ∧
    matchesPlainChat "@bob hello".toList = false ∧ matchesPlainChat "¿que?".toList = false ∧
    matchesPlainChat "!ask x".toList = false := by
  decide

/-! ## C15: `remove` -/

theorem length_setDeletedAt (id : Str) (now : Nat) (cs : List CommandRecord) :
    (setDeletedAt id now cs).length = cs.length := by
  induction cs with
  | nil => rfl
  | cons r rest ih =>
    unfold setDeletedAt
    split <;> simp [ih]

theorem setDeletedAt_of_absent (id : Str) (now : Nat) (cs : List CommandRecord)
    (h : ∀ r ∈ cs, r.id ≠ id) : setDeletedAt id now cs = cs := by
  induction cs with
  | nil => rfl
  | cons r rest ih =>
    unfold setDeletedAt
    rw [if_neg (h r (List.mem_cons_self _ _)),
      ih (fun x hx => h x (List.mem_cons_of_mem _ hx))]

theorem setDeletedAt_of_first (id : Str) (now : Nat) (pre post : List CommandRecord)
    (r : CommandRecord) (hr : r.id = id) (hpre : ∀ x ∈ pre, x.id ≠ id) :
    setDeletedAt id now (pre ++ r :: post) = pre ++ { r with deleted_at := some now } :: post := by
  induction pre with
  | nil => simp [setDeletedAt, hr]
  | cons y ys ih =>
    rw [List.cons_append]
    unfold setDeletedAt
    rw [if_neg (hpre y (List.mem_cons_self _ _)),
      ih (fun x hx => hpre x (List.mem_cons_of_mem _ hx))]
    rfl

/-- No call of `find` returns a record that has a `deleted_at`. -/
theorem find_excludes_deleted (st : Store) (now : Nat) (params : Params) (r : CommandRecord)
    (h : r ∈ find st now params) : r.deleted_at = none := by
  have h2 := (mem_find st now params r h).2
  cases hd : r.deleted_at with
  | none => rfl
  | some d => simp [matchesQuery, hd] at h2

/-- C15. For every store content and id, `remove(id)` returns the id and is a
soft delete: the number of stored records, the counter and the profiles are as
before; when no record has that `id` nothing changes; otherwise the first
record with that `id` gets the clock reading as its `deleted_at`, its other
fields and all other records stay as they were, and no later call of `find`
returns that record. -/
theorem remove_is_soft_delete (st : Store) (now : Nat) (id : Str) :
    (remove st now id).2 = id ∧
    (remove st now id).1.twitchCommands.length = st.twitchCommands.length ∧
    (remove st now id).1.counter = st.counter ∧ (remove st now id).1.users = st.users ∧
    ((∀ r ∈ st.twitchCommands, r.id ≠ id) →
      (remove st now id).1.twitchCommands = st.twitchCommands) ∧
    (∀ (pre post : List CommandRecord) (r : CommandRecord),
      st.twitchCommands = pre ++ r :: post → r.id = id → (∀ x ∈ pre, x.id ≠ id) →
      (remove st now id).1.twitchCommands = pre ++ { r with deleted_at := some now } :: post ∧
      ∀ (later : Nat) (params : Params),
        { r with deleted_at := some now } ∉ find (remove st now id).1 later params) := by
  refine ⟨rfl, length_setDeletedAt id now _, rfl, rfl, ?_, ?_⟩
  · intro h
    exact setDeletedAt_of_absent id now _ h
  · intro pre post r hst hr hpre
    refine ⟨?_, ?_⟩
    · show setDeletedAt id now st.twitchCommands = _
      rw [hst, setDeletedAt_of_first id now pre post r hr hpre]
    · intro later params hmem
      have := find_excludes_deleted _ later params _ hmem
      simp at this

/-- Removing the line `c3` of the chat leaves four records, the third with
`deleted_at` set, and `find` returns the other three. -/
theorem remove_is_soft_delete_witness :
    (remove chatStore 4500 "c3".toList).1.twitchCommands =
      [chatLine 1 "c1" "hello @bob" 1000, chatLine 2 "c2" "@bob hello" 2000] ++
        { chatLine 3 "c3" "!ask x" 3000 with deleted_at := some 4500 } ::
          [chatLine 4 "c4" "¿que?" 4000] ∧
    { chatLine 3 "c3" "!ask x" 3000 with deleted_at := some 4500 } ∉
      find (remove chatStore 4500 "c3".toList).1 5000 noOptions :=
  have h := (remove_is_soft_delete chatStore 4500 "c3".toList).2.2.2.2.2
    [chatLine 1 "c1" "hello @bob" 1000, chatLine 2 "c2" "@bob hello" 2000]
    [chatLine 4 "c4" "¿que?" 4000] (chatLine 3 "c3" "!ask x" 3000) rfl rfl (by decide)
  ⟨h.1, h.2 5000 noOptions⟩

/-! ## C16: the presence ping -/

/-- What `create` does with a text that matches none of its patterns. -/
theorem create_of_unrecognized (deps : Deps) (st : Store) (now : Nat) (m : ChatMessage)
    (h : isRecognized m.message = false) :
    create deps st now m =
      { store := { st with twitchCommands := (findOneAndUpdate st.twitchCommands m none).1 },
        removals := [], patches := [],
        completion := .returned (findOneAndUpdate st.twitchCommands m none).2
          (usersGet st m.username) } := by
  simp only [isRecognized, Bool.or_eq_false_iff] at h
  obtain ⟨⟨⟨⟨⟨ha0, hs⟩, h1⟩, h2⟩, h3⟩, h4⟩ := h
  have ha : matchArchive m.message = none := by
    cases hma : matchArchive m.message with
    | none => rfl
    | some d => simp [hma] at ha0
  have hpost : postUpsert deps now m = .nothing := by
    simp [postUpsert, h1, h2, h3, h4]
  rw [create_of_other deps st now m ha hs, persist_of_nothing _ _ _ _ _ _ _ _ hpost]

/-- What `create` does with the text `!here`. -/
theorem create_of_here (deps : Deps) (st : Store) (now : Nat) (m : ChatMessage)
    (h : m.message = "!here".toList) :
    create deps st now m =
      { store := usersPatch
          { st with twitchCommands := (findOneAndUpdate st.twitchCommands m none).1 }
          m.username (.last_seen now),
        removals := [], patches := [(m.username, .last_seen now)],
        completion := .returned (findOneAndUpdate st.twitchCommands m none).2
          (applyPatch (.last_seen now) (usersGet st m.username)) } := by
  have ha : matchArchive m.message = none := by rw [h]; decide
  have hs : isSubmission m.message = false := by rw [h]; decide
  have h1 : isHere m.message = true := by rw [h]; decide
  have hpost : postUpsert deps now m = .patch (.last_seen now) := by
    simp [postUpsert, h1]
  rw [create_of_other deps st now m ha hs, persist_of_patch _ _ _ _ _ _ _ _ _ hpost]
  rfl

/-- C16. When the text is exactly `!here`, `create` sets the author's
`last_seen` to the clock reading of the call, in the profile stored and in the
profile returned (so, when the previous `last_seen` is not after that reading,
the new value is not before the previous one and not after the reading); no
`num` is assigned (the counter stays, and the record has the `num` the record
of that id had before); the other profile fields and the other profiles stay
as they were. When `!here` is followed by anything, no patch is sent and every
profile stays as it was. -/
theorem here_updates_last_seen (deps : Deps) (st : Store) (now : Nat) (m : ChatMessage) :
    (m.message = "!here".toList →
      ((create deps st now m).store.users m.username).last_seen = some now ∧
      (∃ created user, (create deps st now m).completion = .returned created user ∧
        user.last_seen = some now ∧
        created.num = (st.twitchCommands.find? (fun r => r.id = m.id)).bind (fun r => r.num)) ∧
      (∀ prev, (st.users m.username).last_seen = some prev → prev ≤ now →
        ∃ t, ((create deps st now m).store.users m.username).last_seen = some t ∧
          prev ≤ t ∧ t ≤ now) ∧
      (create deps st now m).store.counter = st.counter ∧
      ((create deps st now m).store.users m.username).country = (st.users m.username).country ∧
      ((create deps st now m).store.users m.username).team = (st.users m.username).team ∧
      ((create deps st now m).store.users m.username).team_color =
        (st.users m.username).team_color ∧
      ((create deps st now m).store.users m.username).pronoun = (st.users m.username).pronoun ∧
      ((create deps st now m).store.users m.username).status = (st.users m.username).status ∧
      (∀ n, n ≠ m.username → (create deps st now m).store.users n = st.users n)) ∧
    (∀ t : Str, t ≠ [] → m.message = "!here".toList ++ t →
      (create deps st now m).patches = [] ∧ (create deps st now m).store.users = st.users ∧
      (create deps st now m).store.counter = st.counter) := by
  refine ⟨?_, ?_⟩
  · intro h
    rw [create_of_here deps st now m h]
    have hl : ((usersPatch
        { st with twitchCommands := (findOneAndUpdate st.twitchCommands m none).1 }
        m.username (.last_seen now)).users m.username).last_seen = some now := by
      simp [usersPatch, applyPatch]
    refine ⟨hl, ⟨_, _, rfl, rfl, upsertIn_snd_num _ _ _ _⟩, ?_, rfl, ?_, ?_, ?_, ?_, ?_, ?_⟩
    · intro prev _ hle
      exact ⟨now, hl, hle, Nat.le_refl _⟩
    · simp [usersPatch, applyPatch]
    · simp [usersPatch, applyPatch]
    · simp [usersPatch, applyPatch]
    · simp [usersPatch, applyPatch]
    · simp [usersPatch, applyPatch]
    · intro n hn
      simp [usersPatch, hn]
  · intro t ht h
    have hr : isRecognized m.message = false := by
      rw [h]
      cases t with
      | nil => exact absurd rfl ht
      | cons c cs => rfl
    rw [create_of_unrecognized deps st now m hr]
    exact ⟨rfl, rfl, rfl⟩

/-- A ping at clock reading 100 of a user last seen at 40, and a text that
only begins with `!here`. -/
theorem here_updates_last_seen_witness :
    ((create asciiDeps
        { emptyStore with users := fun n => { blankProfile n with last_seen := some 40 } } 100
        (aliceSays "m1" "!here")).store.users "alice".toList).last_seen = some 100 ∧
    (create asciiDeps emptyStore 100 (aliceSays "m1" "!here now")).patches = [] :=
  ⟨((here_updates_last_seen asciiDeps
      { emptyStore with users := fun n => { blankProfile n with last_seen := some 40 } } 100
      (aliceSays "m1" "!here")).1 rfl).1,
    ((here_updates_last_seen asciiDeps emptyStore 100 (aliceSays "m1" "!here now")).2
      " now".toList (by decide) rfl).1⟩

/-! ## C17: one command for each message -/

theorem firedBranches_le_one (s : Str) : firedBranches s ≤ 1 := by
  unfold firedBranches
  by_cases hs : isSubmission s = true
  · obtain ⟨h0, h1, h2, h3, h4⟩ := submission_excludes s hs
    simp [hs, h0, h1, h2, h3, h4]
  · cases ha : matchArchive s with
    | some d =>
      obtain ⟨h0, h1, h2, h3, h4⟩ := archive_excludes s d ha
      simp [h0, h1, h2, h3, h4]
    | none =>
      by_cases hp : isProfileCommand s = true
      · obtain ⟨-, h0, h1, h2, h3⟩ := profileCommand_excludes s hp
        simp [hp, h0, h1, h2, h3]
      · have hhere : isHere s = true → isSetStatus s = false ∧ isClearStatus s = false := by
          intro h
          have he : s = "!here".toList := by simpa [isHere] using h
          subst he
          exact ⟨rfl, rfl⟩
        have hset : isSetStatus s = true → isClearStatus s = false := by
          intro h
          obtain ⟨r, rfl⟩ := (startsWith_iff _ _).mp h
          rfl
        have hs0 : isSubmission s = false := by simpa using hs
        have hp0 : isProfileCommand s = false := by simpa using hp
        cases h1 : isHere s <;> cases h2 : isSetStatus s <;> cases h3 : isClearStatus s <;>
          simp_all

theorem changedFields_applyPatch (p : ProfilePatch) (u : UserProfile) :
    changedFields u (applyPatch p u) ≤ 1 := by
  cases p <;> simp only [changedFields, applyPatch, if_true] <;> split <;> simp

theorem changedFields_self (u : UserProfile) : changedFields u u = 0 := by
  simp [changedFields]

/-- The patches `persist` adds and the profiles it leaves. -/
theorem persist_patch_cases (deps : Deps) (st : Store) (now : Nat) (m : ChatMessage)
    (num : Option Nat) (user : UserProfile) (removals : List Nat)
    (patches : List (Str × ProfilePatch)) :
    ((persist deps st now m num user removals patches).patches = patches ∧
      (persist deps st now m num user removals patches).store.users = st.users ∧
      ∀ c u, (persist deps st now m num user removals patches).completion = .returned c u →
        u = user) ∨
    (∃ p, (persist deps st now m num user removals patches).patches =
        patches ++ [(user.name, p)] ∧
      (persist deps st now m num user removals patches).store.users =
        (usersPatch st user.name p).users ∧
      ∀ c u, (persist deps st now m num user removals patches).completion = .returned c u →
        u = applyPatch p user) := by
  unfold persist
  split
  · rename_i p hp
    refine Or.inr ⟨p, rfl, rfl, ?_⟩
    intro c u h
    simp only [Completion.returned.injEq] at h
    exact h.2.symm
  · refine Or.inl ⟨rfl, rfl, ?_⟩
    intro c u h
    simp only [Completion.returned.injEq] at h
    exact h.2.symm
  · exact Or.inl ⟨rfl, rfl, fun c u h => by simp at h⟩
  · exact Or.inl ⟨rfl, rfl, fun c u h => by simp at h⟩

/-- A call of `create` sends no patch and leaves the profiles, or sends one
patch for the author and applies it. -/
theorem create_patch_cases (deps : Deps) (st : Store) (now : Nat) (m : ChatMessage) :
    ((create deps st now m).patches = [] ∧ (create deps st now m).store.users = st.users ∧
      ∀ c u, (create deps st now m).completion = .returned c u → u = usersGet st m.username) ∨
    (∃ p, (create deps st now m).patches = [(m.username, p)] ∧
      (create deps st now m).store.users = (usersPatch st m.username p).users ∧
      ∀ c u, (create deps st now m).completion = .returned c u →
        u = applyPatch p (usersGet st m.username)) := by
  cases ha : matchArchive m.message with
  | some digits =>
    cases hb : isModOrOwner m (findOneByNum st.twitchCommands (toNumber digits)) with
    | none =>
      refine Or.inl ?_
      have hc : create deps st now m =
          { store := st, removals := [], patches := [], completion := .typeError } := by
        unfold create
        simp only [ha, hb]
      rw [hc]
      exact ⟨rfl, rfl, fun c u h => by simp at h⟩
    | some b =>
      rw [create_of_archive deps st now m digits b ha hb]
      simpa using persist_patch_cases deps st now m none (usersGet st m.username) _ []
  | none =>
    cases hs : isSubmission m.message with
    | true =>
      by_cases hb : trim (join ' ' (split ' ' m.message).tail) = []
      · rw [create_of_blank_submission deps st now m hs hb]
        exact Or.inl ⟨rfl, rfl, fun c u h => by simp at h⟩
      · rw [create_of_submission deps st now m hs hb]
        refine Or.inr ⟨.last_seen now, rfl, rfl, ?_⟩
        intro c u h
        simp only [Completion.returned.injEq] at h
        exact h.2.symm
    | false =>
      rw [create_of_other deps st now m ha hs]
      simpa using persist_patch_cases deps st now m none (usersGet st m.username) [] []

/-- C17. A text matches at most one of the six patterns of `create`, so at
most one branch of its two cascades fires; a call sends at most one patch, and
of the fields `country`, `team`, `team_color`, `pronoun`, `status`, `last_seen`
of the author at most one differs after the call, in the profile stored and in
the profile returned, the other profiles staying as they were; in particular
a `team-color` command leaves `team` as it was. -/
theorem at_most_one_command (deps : Deps) (st : Store) (now : Nat) (m : ChatMessage) :
    firedBranches m.message ≤ 1 ∧
    (create deps st now m).patches.length ≤ 1 ∧
    changedFields (st.users m.username) ((create deps st now m).store.users m.username) ≤ 1 ∧
    (∀ n, n ≠ m.username → (create deps st now m).store.users n = st.users n) ∧
    (∀ created user, (create deps st now m).completion = .returned created user →
      changedFields (usersGet st m.username) user ≤ 1) ∧
    (∀ (cmd t : Str) (rest : List Str),
      cmd = "!team-color".toList ∨ cmd = "!team-colour".toList →
      split ' ' m.message = cmd :: t :: rest →
      ((create deps st now m).store.users m.username).team = (st.users m.username).team) := by
  refine ⟨firedBranches_le_one m.message, ?_, ?_, ?_, ?_, ?_⟩
  · rcases create_patch_cases deps st now m with ⟨h, -, -⟩ | ⟨p, h, -, -⟩ <;> simp [h]
  · rcases create_patch_cases deps st now m with ⟨-, h, -⟩ | ⟨p, -, h, -⟩
    · rw [h, changedFields_self]
      exact Nat.zero_le _
    · rw [h]
      simpa [usersPatch] using changedFields_applyPatch p (st.users m.username)
  · intro n hn
    rcases create_patch_cases deps st now m with ⟨-, h, -⟩ | ⟨p, -, h, -⟩
    · rw [h]
    · rw [h]
      simp [usersPatch, hn]
  · intro created user hc
    rcases create_patch_cases deps st now m with ⟨-, -, h⟩ | ⟨p, -, -, h⟩
    · rw [h created user hc, changedFields_self]
      exact Nat.zero_le _
    · rw [h created user hc]
      exact changedFields_applyPatch p _
  · intro cmd t rest hcmd hs
    obtain ⟨ha, hsub, h1, h2, h3, h4⟩ := team_color_text m.message cmd t rest hcmd hs
    have hpost : postUpsert deps now m = profileStep deps m.message := by
      simp [postUpsert, h1, h2, h3, h4]
    rw [profileStep_team_color deps m.message cmd t rest hcmd hs] at hpost
    rw [create_of_other deps st now m ha hsub]
    split_ifs at hpost
    · rw [persist_of_patch _ _ _ _ _ _ _ _ _ hpost]
      simp [usersPatch, usersGet, applyPatch]
    · rw [persist_of_patch _ _ _ _ _ _ _ _ _ hpost]
      simp [usersPatch, usersGet, applyPatch]
    · rw [persist_of_nothing _ _ _ _ _ _ _ _ hpost]

/-- A profile of `alice` with a team: `!team-color abc` sets the colour and
keeps the team. -/
theorem at_most_one_command_witness :
    ((create asciiDeps
        { emptyStore with users := fun n => { blankProfile n with team := some "rust".toList } }
        100 (aliceSays "m1" "!team-color abc")).store.users "alice".toList).team =
      some "rust".toList :=
  (at_most_one_command asciiDeps
    { emptyStore with users := fun n => { blankProfile n with team := some "rust".toList } }
    100 (aliceSays "m1" "!team-color abc")).2.2.2.2.2 "!team-color".toList "abc".toList []
    (Or.inl rfl) (by decide)

/-! ## C18: a submission dispatched twice -/

/-- When one record has the id, two stored records with the id are the same. -/
theorem eq_of_countId_eq_one (cs : List CommandRecord) (id : Str) (a b : CommandRecord)
    (h : countId cs id = 1) (ha : a ∈ cs) (hb : b ∈ cs) (hai : a.id = id) (hbi : b.id = id) :
    a = b := by
  unfold countId at h
  obtain ⟨x, hx⟩ := List.length_eq_one.mp h
  have ha1 : a ∈ cs.filter (fun r => r.id = id) := List.mem_filter.mpr ⟨ha, by simpa using hai⟩
  have hb1 : b ∈ cs.filter (fun r => r.id = id) := List.mem_filter.mpr ⟨hb, by simpa using hbi⟩
  rw [hx] at ha1 hb1
  rw [List.mem_singleton.mp ha1, List.mem_singleton.mp hb1]

/-- C18. When a submission with a body that is not blank is dispatched twice
with the same id, the counter is incremented by each dispatch and ends 2 above
its initial value (0 when there was no counter document); the second dispatch
adds no record, so that, at most one record having had that id at the start,
exactly one has it at the end, and the `num` of that record is the value the
second dispatch assigned. -/
theorem submission_twice_increments_twice (deps : Deps) (st : Store) (n1 n2 : Nat)
    (m : ChatMessage) (h : isFilledSubmission m) :
    (create deps st n1 m).store.counter = some (st.counter.getD 0 + 1) ∧
    (create deps (create deps st n1 m).store n2 m).store.counter =
      some (st.counter.getD 0 + 2) ∧
    (create deps (create deps st n1 m).store n2 m).store.twitchCommands.length =
      (create deps st n1 m).store.twitchCommands.length ∧
    (∃ created user,
      (create deps (create deps st n1 m).store n2 m).completion = .returned created user ∧
      created ∈ (create deps (create deps st n1 m).store n2 m).store.twitchCommands ∧
      created.id = m.id ∧ created.num = some (st.counter.getD 0 + 2)) ∧
    (countId st.twitchCommands m.id ≤ 1 →
      countId (create deps (create deps st n1 m).store n2 m).store.twitchCommands m.id = 1 ∧
      ∀ r ∈ (create deps (create deps st n1 m).store n2 m).store.twitchCommands,
        r.id = m.id → r.num = some (st.counter.getD 0 + 2)) := by
  obtain ⟨hlen, hcount⟩ := second_create_keeps_count deps st n1 n2 m
  have h1 : (create deps st n1 m).store.counter = some (st.counter.getD 0 + 1) := by
    rw [create_of_submission deps st n1 m h.1 h.2]
  have h2 := create_of_submission deps (create deps st n1 m).store n2 m h.1 h.2
  rw [h1] at h2
  simp only [Option.getD_some, Nat.add_assoc, Nat.reduceAdd] at h2
  have hmem : (findOneAndUpdate (create deps st n1 m).store.twitchCommands m
      (some (st.counter.getD 0 + 2))).2 ∈
      (create deps (create deps st n1 m).store n2 m).store.twitchCommands := by
    rw [h2]
    exact upsertIn_snd_mem _ _ _ _
  have hid := (upsertIn_snd_fields (create deps st n1 m).store.twitchCommands m
    (some (st.counter.getD 0 + 2)) (create deps st n1 m).store.twitchCommands).1
  have hnum := upsertIn_snd_num (create deps st n1 m).store.twitchCommands m
    (some (st.counter.getD 0 + 2)) (create deps st n1 m).store.twitchCommands
  refine ⟨h1, by rw [h2], hlen, ⟨_, _, by rw [h2], hmem, hid, hnum⟩, ?_⟩
  intro hle
  have hone : countId (create deps (create deps st n1 m).store n2 m).store.twitchCommands
      m.id = 1 := by
    obtain ⟨num, hn⟩ := create_reaches_upsert deps st n1 m (fun _ => h.2)
      (fun d hd => by rw [(submission_excludes m.message h.1).1] at hd; exact absurd hd (by simp))
    rw [hcount, hn, findOneAndUpdate, countId_upsertIn]
    split
    · rfl
    · omega
  refine ⟨hone, ?_⟩
  intro r hr hri
  rw [eq_of_countId_eq_one _ m.id r _ hone hr hmem hri hid]
  exact hnum

/-- On a store whose counter stands at 5, `!ask one` dispatched twice leaves
the counter at 7 and one record `a`, numbered 7. -/
theorem submission_twice_increments_twice_witness :
    (create asciiDeps (create asciiDeps storeWithQuestion5 1 (aliceSays "a" "!ask one")).store 2
      (aliceSays "a" "!ask one")).store.counter = some 7 ∧
    countId (create asciiDeps
      (create asciiDeps storeWithQuestion5 1 (aliceSays "a" "!ask one")).store 2
      (aliceSays "a" "!ask one")).store.twitchCommands "a".toList = 1 :=
  have h := submission_twice_increments_twice asciiDeps storeWithQuestion5 1 2
    (aliceSays "a" "!ask one") ⟨by decide, by decide⟩
  ⟨h.2.1, (h.2.2.2.2 (by decide)).1⟩

/-! ## C19: where the argument tokens come from -/

/-- The patches `persist` sends and the profiles it leaves depend on the
message through the cascade after the upsert only. -/
theorem persist_patches_users (deps : Deps) (st : Store) (now : Nat) (m : ChatMessage)
    (num : Option Nat) (user : UserProfile) (removals : List Nat)
    (patches : List (Str × ProfilePatch)) :
    (persist deps st now m num user removals patches).patches =
      (match postUpsert deps now m with
        | .patch p => patches ++ [(user.name, p)]
        | _ => patches) ∧
    (persist deps st now m num user removals patches).store.users =
      (match postUpsert deps now m with
        | .patch p => (usersPatch st user.name p).users
        | _ => st.users) := by
  unfold persist
  split <;> rename_i h <;> simp [h, usersPatch]

/-- Outside `!setstatus`, the cascade after the upsert does not read
`parsedMessage`. -/
theorem postUpsert_ignores_parsedMessage (deps : Deps) (now : Nat) (m : ChatMessage)
    (q : Option Str) (h : isSetStatus m.message = false) :
    postUpsert deps now { m with parsedMessage := q } = postUpsert deps now m := by
  simp [postUpsert, h]

/-- C19, as the claim states it, fails: with message `!country fr` and
parsedMessage `!country de`, and both keys in the table, the country set is
the one of `fr`. -/
theorem country_key_comes_from_message :
    ((create twoCountries emptyStore 100
        { aliceSays "m1" "!country fr" with parsedMessage := some "!country de".toList }).store.users
      "alice".toList).country = some "France".toList := by
  decide

/-- C19, amended. Only `!setstatus` takes its argument tokens from
`parsedMessage`: when the message has a `parsedMessage` that is not empty, the
status is what follows the first token of `parsedMessage`. For every text that
is not a `!setstatus` command, so for `!country`, `!flag`, `!team`,
`!team-color`, `!team-colour` and `!pronoun`, the patches sent and the
profiles left are the same whatever the `parsedMessage`: the tokens come from
`message`. -/
theorem parsedMessage_only_for_setstatus (deps : Deps) (st : Store) (now : Nat)
    (m : ChatMessage) :
    (∀ q : Str, isSetStatus m.message = true → m.parsedMessage = some q → q ≠ [] →
      (create deps st now m).patches =
        [(m.username, .status (some (join ' ' (split ' ' q).tail)))] ∧
      ((create deps st now m).store.users m.username).status =
        some (join ' ' (split ' ' q).tail)) ∧
    (∀ q : Option Str, isSetStatus m.message = false →
      (create deps st now { m with parsedMessage := q }).patches = (create deps st now m).patches ∧
      (create deps st now { m with parsedMessage := q }).store.users =
        (create deps st now m).store.users) := by
  refine ⟨?_, ?_⟩
  · intro q hset hq hne
    obtain ⟨r, hr⟩ := (startsWith_iff _ _).mp hset
    obtain ⟨ha, hsub, h1, -⟩ := setstatus_text r
    rw [← hr] at ha hsub h1
    have hpost : postUpsert deps now m = .patch (.status (some (join ' ' (split ' ' q).tail))) := by
      unfold postUpsert
      rw [if_neg (by simp [h1]), if_pos hset]
      simp only [parsedOrMessage, hq, if_neg hne]
      cases hs : split ' ' q with
      | nil => exact absurd hs (split_ne_nil _ _)
      | cons tok args => rfl
    rw [create_of_other deps st now m ha hsub, persist_of_patch _ _ _ _ _ _ _ _ _ hpost]
    exact ⟨rfl, by simp [usersPatch, usersGet, applyPatch]⟩
  · intro q hset
    have hpost := postUpsert_ignores_parsedMessage deps now m q hset
    cases ha : matchArchive m.message with
    | some digits =>
      have ha1 : matchArchive ({ m with parsedMessage := q } : ChatMessage).message =
        some digits := ha
      cases hb : isModOrOwner m (findOneByNum st.twitchCommands (toNumber digits)) with
      | none =>
        have hb1 : isModOrOwner { m with parsedMessage := q }
          (findOneByNum st.twitchCommands (toNumber digits)) = none := hb
        have hc : ∀ x : ChatMessage, matchArchive x.message = some digits →
            isModOrOwner x (findOneByNum st.twitchCommands (toNumber digits)) = none →
            create deps st now x =
              { store := st, removals := [], patches := [], completion := .typeError } := by
          intro x hx1 hx2
          unfold create
          simp only [hx1, hx2]
        rw [hc _ ha1 hb1, hc m ha hb]
        exact ⟨rfl, rfl⟩
      | some b =>
        have hb1 : isModOrOwner { m with parsedMessage := q }
          (findOneByNum st.twitchCommands (toNumber digits)) = some b := hb
        rw [create_of_archive deps st now _ digits b ha1 hb1,
          create_of_archive deps st now m digits b ha hb]
        obtain ⟨e1, e2⟩ := persist_patches_users deps st now { m with parsedMessage := q } none
          (usersGet st m.username) (archiveRemovals
            (findOneByNum st.twitchCommands (toNumber digits)) b) []
        obtain ⟨e3, e4⟩ := persist_patches_users deps st now m none
          (usersGet st m.username) (archiveRemovals
            (findOneByNum st.twitchCommands (toNumber digits)) b) []
        rw [hpost] at e1 e2
        exact ⟨e1.trans e3.symm, e2.trans e4.symm⟩
    | none =>
      have ha1 : matchArchive ({ m with parsedMessage := q } : ChatMessage).message = none := ha
      cases hs : isSubmission m.message with
      | true =>
        have hs1 : isSubmission ({ m with parsedMessage := q } : ChatMessage).message = true := hs
        by_cases hb : trim (join ' ' (split ' ' m.message).tail) = []
        · rw [create_of_blank_submission deps st now _ hs1 hb,
            create_of_blank_submission deps st now m hs hb]
          exact ⟨rfl, rfl⟩
        · rw [create_of_submission deps st now _ hs1 hb,
            create_of_submission deps st now m hs hb]
          exact ⟨rfl, rfl⟩
      | false =>
        have hs1 : isSubmission ({ m with parsedMessage := q } : ChatMessage).message = false :=
          hs
        rw [create_of_other deps st now _ ha1 hs1, create_of_other deps st now m ha hs]
        obtain ⟨e1, e2⟩ := persist_patches_users deps st now { m with parsedMessage := q } none
          (usersGet st m.username) [] []
        obtain ⟨e3, e4⟩ := persist_patches_users deps st now m none
          (usersGet st m.username) [] []
        rw [hpost] at e1 e2
        exact ⟨e1.trans e3.symm, e2.trans e4.symm⟩

/-- The status comes from `parsedMessage`, the country key from `message`. -/
theorem parsedMessage_only_for_setstatus_witness :
    ((create asciiDeps emptyStore 100
        { aliceSays "m1" "!setstatus hi Kappa" with
          parsedMessage := some "!setstatus hi there".toList }).store.users
      "alice".toList).status = some "hi there".toList ∧
    (create twoCountries emptyStore 100
        { aliceSays "m1" "!country fr" with parsedMessage := some "!country de".toList }).patches =
      (create twoCountries emptyStore 100 (aliceSays "m1" "!country fr")).patches :=
  ⟨((parsedMessage_only_for_setstatus asciiDeps emptyStore 100
      { aliceSays "m1" "!setstatus hi Kappa" with
        parsedMessage := some "!setstatus hi there".toList }).1 "!setstatus hi there".toList
      (by decide) rfl (by decide)).2.trans (by decide),
    ((parsedMessage_only_for_setstatus twoCountries emptyStore 100
      (aliceSays "m1" "!country fr")).2 (some "!country de".toList) (by decide)).1⟩

/-! ## C20: submissions are recognised by the start of the text -/

/-- C20. A text that begins with `!ask`, `!idea` or `!submit`, whatever
follows in its first token (as `!asking why`), is a submission: when the text
after its first space is not blank, the counter goes up by one and the record
stored and returned has the new value as its `num`, as for `!ask`; when the
text has no space at all (as `!askwhy`), nothing is incremented and nothing is
stored. -/
theorem submission_by_text_start (deps : Deps) (st : Store) (now : Nat) (m : ChatMessage)
    (cmd rest : Str)
    (hcmd : cmd = "!ask".toList ∨ cmd = "!idea".toList ∨ cmd = "!submit".toList)
    (hm : m.message = cmd ++ rest) :
    (trim (join ' ' (split ' ' m.message).tail) ≠ [] →
      (create deps st now m).store.counter = some (st.counter.getD 0 + 1) ∧
      ∃ created user, (create deps st now m).completion = .returned created user ∧
        created ∈ (create deps st now m).store.twitchCommands ∧ created.id = m.id ∧
        created.num = some (st.counter.getD 0 + 1)) ∧
    (' ' ∉ m.message →
      (create deps st now m).store.counter = st.counter ∧
      (create deps st now m).store.twitchCommands = st.twitchCommands ∧
      (create deps st now m).patches = [] ∧
      (create deps st now m).completion = .undefined) := by
  have hs : isSubmission m.message = true := by
    rw [hm]
    simp only [isSubmission, Bool.or_eq_true, startsWith_iff]
    rcases hcmd with rfl | rfl | rfl
    · exact Or.inl (Or.inl ⟨rest, rfl⟩)
    · exact Or.inl (Or.inr ⟨rest, rfl⟩)
    · exact Or.inr ⟨rest, rfl⟩
  refine ⟨?_, ?_⟩
  · intro hb
    rw [create_of_submission deps st now m hs hb]
    exact ⟨rfl, _, _, rfl, upsertIn_snd_mem _ _ _ _, (upsertIn_snd_fields _ _ _ _).1,
      upsertIn_snd_num _ _ _ _⟩
  · intro hsp
    have hb : trim (join ' ' (split ' ' m.message).tail) = [] := by
      rw [split_of_not_mem ' ' m.message hsp]
      rfl
    rw [create_of_blank_submission deps st now m hs hb]
    exact ⟨rfl, rfl, rfl, rfl⟩

/-- On a store whose counter stands at 5, `!asking why` gets the number 6, and
`!askwhy` leaves the counter and the records as they were. -/
theorem submission_by_text_start_witness :
    (create asciiDeps storeWithQuestion5 100 (aliceSays "m1" "!asking why")).store.counter =
      some 6 ∧
    (create asciiDeps storeWithQuestion5 100 (aliceSays "m1" "!ideas more tests")).store.counter =
      some 6 ∧
    (create asciiDeps storeWithQuestion5 100 (aliceSays "m1" "!askwhy")).store.twitchCommands =
      storeWithQuestion5.twitchCommands :=
  ⟨((submission_by_text_start asciiDeps storeWithQuestion5 100 (aliceSays "m1" "!asking why")
      "!ask".toList "ing why".toList (Or.inl rfl) rfl).1 (by decide)).1,
    ((submission_by_text_start asciiDeps storeWithQuestion5 100
      (aliceSays "m1" "!ideas more tests") "!idea".toList "s more tests".toList
      (Or.inr (Or.inl rfl)) rfl).1 (by decide)).1,
    ((submission_by_text_start asciiDeps storeWithQuestion5 100 (aliceSays "m1" "!askwhy")
      "!ask".toList "why".toList (Or.inl rfl) rfl).2 (by decide)).2.1⟩

end TwitchCommands
